import Mathlib

/-!
Shallow embedding of the intervention command interpreter and simulation-state
mutation engine of `src/backend/main.py` (`_execute_intervention` and its
helpers `_normalize_agent_id_list`, `_get_agent_state_ref`, `_get_agent_group`,
`_agent_ids_by_group`, `_parse_assignments`, `_apply_agent_patch`), over the
`SimulationState` dataclass of `src/backend/models/types.py`.

Modelling conventions:
- Python strings are `List Char`; `str.strip()` / `str.lower()` are modelled on
  ASCII whitespace and ASCII case (all command keywords and effect tags in the
  source are ASCII).
- Python floats are modelled as exact rationals (`ℚ`); `float(...)` applied to
  a decimal literal is the literal's exact rational value.
- Python dicts that the engine reads or writes are association lists keyed by
  `AgentKey` (an int key or a string key, as both occur after rehydration from
  persistence); lookups take the first matching key, as dict keys are unique.
- The regular expressions of the source are implemented as dedicated matchers
  with Python `re` semantics (leftmost search, greedy `\s+`/`\d+`, lazy `.+?`,
  `.` not matching a newline, `re.IGNORECASE` as ASCII case folding).
- Exceptions cannot occur in the modelled fragment for any string input (the
  source absorbs all user-input irregularities); fallible sub-steps are
  `Option`s.
-/

/-- ASCII whitespace, the characters Python's `\s` and `str.strip` treat as
whitespace (restricted to ASCII). -/
def pyIsSpace (c : Char) : Bool :=
  c = ' ' || c = '\t' || c = '\n' || c = '\r' || c = '\x0b' || c = '\x0c'

/-- Remove leading ASCII whitespace. -/
def stripLeading : List Char → List Char
  | [] => []
  | c :: cs => if pyIsSpace c then stripLeading cs else c :: cs

/-- Python `str.strip()`: remove leading and trailing whitespace. -/
def pyStrip (l : List Char) : List Char :=
  (stripLeading ((stripLeading l).reverse)).reverse

/-- Python `str.lower()` (ASCII). -/
def toLowerChars (l : List Char) : List Char := l.map Char.toLower

/-- Numeric value of a decimal digit character. -/
def digitVal (c : Char) : Nat := c.toNat - 48

/-- Value of a string of decimal digits (most significant first). -/
def decValue (ds : List Char) : Nat := ds.foldl (fun a c => a * 10 + digitVal c) 0

/-- Decimal digit character for a value below ten. -/
def digitChar (d : Nat) : Char := Char.ofNat (48 + d)

/-- Decimal digits of a natural number, as produced by Python `str(int)`
(no leading zeros, most significant first). -/
def natToChars (n : Nat) : List Char :=
  if _h : n < 10 then [digitChar n]
  else natToChars (n / 10) ++ [digitChar (n % 10)]
termination_by n
decreasing_by exact Nat.div_lt_self (by omega) (by omega)

/-- Python `str(int)`: canonical decimal form, `-` sign for negatives. -/
def intToChars : Int → List Char
  | Int.ofNat n => natToChars n
  | Int.negSucc n => '-' :: natToChars (n + 1)

/-- Leading sign of a numeric literal: `-` is negative, `+` positive, both
consumed; anything else leaves the input unchanged. -/
def splitSign (l : List Char) : Bool × List Char :=
  match l with
  | [] => (false, [])
  | c :: cs =>
    if c = '-' then (true, cs)
    else if c = '+' then (false, cs)
    else (false, c :: cs)

/-- Python `int(str)` on a string: optional surrounding whitespace, optional
sign, then decimal digits; `None` when the string is not a valid integer
literal (the source skips such keys).  Digit-group underscores are not
modelled; they cannot arise in persisted agent keys. -/
def pyIntOfChars (l : List Char) : Option Int :=
  let t := pyStrip l
  let p := splitSign t
  if p.2.isEmpty then none
  else if p.2.all Char.isDigit then
    some (if p.1 then -(decValue p.2 : Int) else (decValue p.2 : Int))
  else none

/-- A matched decimal literal `[+-]?\d+(\.\d+)?`: sign, integer digits,
fractional digits (empty when there is no fractional part). -/
structure NumLit where
  neg : Bool
  ip : List Char
  fp : List Char
deriving DecidableEq

/-- Exact rational value of a decimal literal; this models Python `float(...)`
applied to a string matched by `[+-]?\d+(\.\d+)?` (floats are treated as exact
rationals throughout). -/
def NumLit.val (n : NumLit) : ℚ :=
  let m : ℚ := (decValue n.ip : ℚ) + (decValue n.fp : ℚ) / ((10 : ℚ) ^ n.fp.length)
  if n.neg then -m else m

/-- Match the regex fragment `[+-]?\d+(?:\.\d+)?` at the head of the input
(greedy, as in `re`), returning the literal and the unconsumed rest. -/
def matchNumber (l : List Char) : Option (NumLit × List Char) :=
  let p := splitSign l
  let ip := p.2.takeWhile Char.isDigit
  if ip.isEmpty then none
  else
    let r1 := p.2.dropWhile Char.isDigit
    match r1 with
    | '.' :: r2 =>
      let fp := r2.takeWhile Char.isDigit
      if fp.isEmpty then some (⟨p.1, ip, []⟩, r1)
      else some (⟨p.1, ip, fp⟩, r2.dropWhile Char.isDigit)
    | _ => some (⟨p.1, ip, []⟩, r1)

/-- A key of the `agents` dict: after rehydration from persistence a key may be
an integer or its string form, and both must resolve to the same agent. -/
inductive AgentKey
  | int (i : Int)
  | str (s : List Char)
deriving DecidableEq

/-- The mutable `state` sub-dict of an agent: the four keys the engine reads or
writes (`mood`, `stance`, `resources`, `lastAction`); a `none` field models an
absent key. -/
structure AgentState where
  mood : Option ℚ
  stance : Option ℚ
  resources : Option ℚ
  lastAction : Option (List Char)
deriving DecidableEq

/-- Python truthiness of the state sub-dict: falsy exactly when empty. -/
def AgentState.isFalsy (st : AgentState) : Bool :=
  st.mood.isNone && st.stance.isNone && st.resources.isNone && st.lastAction.isNone

/-- The agent `profile` snapshot; the engine only ever reads its `group` key,
the rest is carried opaquely. -/
structure AgentProfile where
  group : Option (List Char)
  profileRest : String
deriving DecidableEq

/-- An entry of the `agents` dict: `{profile: ..., state: ...}`; a `none`
field models an absent key. -/
structure AgentRec where
  profile : Option AgentProfile
  state : Option AgentState
deriving DecidableEq

/-- Python truthiness of an agent dict restricted to the two keys the engine
reads: falsy exactly when both are absent. -/
def AgentRec.isFalsy (a : AgentRec) : Bool :=
  a.profile.isNone && a.state.isNone

/-- The `SimulationState` dataclass of `models/types.py`.  Fields the engine
never touches are carried with opaque `String` payloads. -/
structure SimState where
  config : String
  tick : Nat
  is_running : Bool
  speed : ℚ
  selected_agent_id : Option Int
  agents : List (AgentKey × AgentRec)
  groups : List (List Char × String)
  logs : List String
  events : List String
  feed : List String
  interventions : List String
  snapshots : List String
  current_snapshot_id : Option String
deriving DecidableEq

/-- First-match lookup in an association list (Python dict lookup; dict keys
are unique, so first match is the match). -/
def alistGet {β : Type} : List (AgentKey × β) → AgentKey → Option β
  | [], _ => none
  | (k', v) :: t, k => if k' = k then some v else alistGet t k

/-- Update the first entry with the given key (in-place dict mutation). -/
def alistUpdate {β : Type} : List (AgentKey × β) → AgentKey → (β → β) → List (AgentKey × β)
  | [], _, _ => []
  | (k', v) :: t, k, f => if k' = k then (k', f v) :: t else (k', v) :: alistUpdate t k f

/-- Effect tags appended by `_execute_intervention`; tags that interpolate a
value (`speed_set:{value}`, `group_mood_shift:{name}`) carry it as data. -/
inductive Effect
  | simulation_paused
  | simulation_resumed
  | speed_set (value : ℚ)
  | agent_state_set
  | target_agent_state_set
  | group_mood_shift (name : List Char)
  | event_injected
  | survey_triggered
  | broadcast_sent
  | command_recorded
deriving DecidableEq

/-- The structured execution summary returned by `_execute_intervention`. -/
structure InterventionExecution where
  status : List Char
  normalizedCommand : List Char
  effects : List Effect
  affectedAgentIds : List Int
deriving DecidableEq

/-- Key decoding for `_normalize_agent_id_list`: an agent id as integer;
string keys that are not integer literals are skipped. -/
def keyToInt : AgentKey → Option Int
  | AgentKey.int i => some i
  | AgentKey.str s => pyIntOfChars s

/-- Return agent ids as integers, regardless of key type (dict order). -/
def normalize_agent_id_list (s : SimState) : List Int :=
  s.agents.filterMap (fun p => keyToInt p.1)

/-- Resolution of an agent id against the dict, integer key first, then the
string form (`agent_id in state.agents` / `str(agent_id) in state.agents`). -/
def resolveKey (agents : List (AgentKey × AgentRec)) (aid : Int) : Option AgentKey :=
  if (alistGet agents (AgentKey.int aid)).isSome then some (AgentKey.int aid)
  else if (alistGet agents (AgentKey.str (intToChars aid))).isSome then
    some (AgentKey.str (intToChars aid))
  else none

/-- Helper `_get_agent_state_ref`: the agent's `state` sub-dict, or `none` when the
agent is absent under both key forms or has no `state` key. -/
def get_agent_state_ref (s : SimState) (aid : Int) : Option AgentState :=
  (resolveKey s.agents aid).bind (fun k => (alistGet s.agents k).bind AgentRec.state)

/-- Python falsy test on the result of `_get_agent_state_ref` (`None` or an
empty dict). -/
def stateRefFalsy : Option AgentState → Bool
  | none => true
  | some st => st.isFalsy

/-- Write back a new `state` sub-dict through the reference resolved at key
`k` (mutation of the dict the reference points into). -/
def setStateAt (s : SimState) (k : AgentKey) (st : AgentState) : SimState :=
  { s with agents := alistUpdate s.agents k (fun r => { r with state := some st }) }

/-- One link of the truthiness chain `agents.get(k) or ...` followed by the
profile/group reads: `none` when the entry is absent or falsy, otherwise the
group name read from the profile (`.get("profile", {}).get("group", "")`). -/
def groupFromEntry : Option AgentRec → Option (List Char)
  | some a =>
    if a.isFalsy then none
    else some (match a.profile with
               | some p => p.group.getD []
               | none => [])
  | none => none

/-- Helper `_get_agent_group`: group name from the agent's profile snapshot, or empty;
the source chains `agents.get(id) or agents.get(str(id)) or {}`, so a falsy
(empty) agent dict under the integer key falls through to the string key. -/
def get_agent_group (s : SimState) (aid : Int) : List Char :=
  match groupFromEntry (alistGet s.agents (AgentKey.int aid)) with
  | some g => g
  | none =>
    match groupFromEntry (alistGet s.agents (AgentKey.str (intToChars aid))) with
    | some g => g
    | none => []

/-- Helper `_agent_ids_by_group`: linear scan, case-insensitive exact match on the
trimmed group name, ids in the order encountered. -/
def agent_ids_by_group (s : SimState) (group_name : List Char) : List Int :=
  let target := toLowerChars (pyStrip group_name)
  (normalize_agent_id_list s).filter
    (fun aid => toLowerChars (pyStrip (get_agent_group s aid)) == target)

/-- Case-insensitive literal match (`re.IGNORECASE` over ASCII): consume the
keyword (given in lowercase) at the head of the input, returning the rest. -/
def matchLitCI : List Char → List Char → Option (List Char)
  | [], l => some l
  | _ :: _, [] => none
  | k :: ks, c :: cs => if c.toLower = k then matchLitCI ks cs else none

/-- Greedy `\s+`: at least one whitespace character, consume the maximal
run.  Each use below is followed by a token that cannot start with whitespace,
so maximal munch agrees with the backtracking semantics of `re`. -/
def wsPlus (l : List Char) : Option (List Char) :=
  match l with
  | c :: cs => if pyIsSpace c then some (cs.dropWhile pyIsSpace) else none
  | [] => none

/-- Core of the speed pattern after the optional `set ` prefix:
`speed\s*=?\s*([+-]?\d+(?:\.\d+)?)`. -/
def speedTail (m : List Char) : Option NumLit :=
  match matchLitCI "speed".data m with
  | none => none
  | some r1 =>
    let r2 := r1.dropWhile pyIsSpace
    let r3 := match r2 with
      | '=' :: t => t
      | _ => r2
    let r4 := r3.dropWhile pyIsSpace
    match matchNumber r4 with
    | some (n, _) => some n
    | none => none

/-- Attempt of `(?:set\s+)?speed\s*=?\s*NUM` at one position: the optional
group is tried first (greedy `?`), then the empty alternative. -/
def speedAt (l : List Char) : Option NumLit :=
  match (match matchLitCI "set".data l with
         | some r =>
           match wsPlus r with
           | some r2 => speedTail r2
           | none => none
         | none => none) with
  | some n => some n
  | none => speedTail l

/-- Search (`re.search`) of the speed pattern: leftmost matching position. -/
def speedSearch : List Char → Option NumLit
  | [] => none
  | c :: cs =>
    match speedAt (c :: cs) with
    | some n => some n
    | none => speedSearch cs

/-- First character of a `.+` group: at least one character, and `.` does not
match a newline. -/
def dotPlusOk (g : List Char) : Bool :=
  match g with
  | [] => false
  | c :: _ => c != '\n'

/-- Backtracking of a greedy `\s+` followed by `.+`: the reversed whitespace
run is given back character by character until `.+` can start; at least one
whitespace character must remain consumed. -/
def giveBackWs : List Char → List Char → Option (List Char)
  | [], _ => none
  | c :: rs, g => if dotPlusOk g then some g else giveBackWs rs (c :: g)

/-- Anchored match `re.match(r"set\s+agent\s+(\d+)\s+(.+)", ..., re.IGNORECASE)`: at
the start; returns the agent id (group 1) and the text matched by `(.+)`
(group 2, greedy, stopping at a newline). -/
def setAgentMatch (l : List Char) : Option (Nat × List Char) :=
  match matchLitCI "set".data l with
  | none => none
  | some r1 =>
    match wsPlus r1 with
    | none => none
    | some r2 =>
      match matchLitCI "agent".data r2 with
      | none => none
      | some r3 =>
        match wsPlus r3 with
        | none => none
        | some r4 =>
          let ds := r4.takeWhile Char.isDigit
          if ds.isEmpty then none
          else
            let r5 := r4.dropWhile Char.isDigit
            match giveBackWs (r5.takeWhile pyIsSpace).reverse (r5.dropWhile pyIsSpace) with
            | none => none
            | some g => some (decValue ds, g.takeWhile (fun c => c != '\n'))

/-- Suffix `\s+mood\s*=\s*([+-]?\d+(?:\.\d+)?)` of the group-shift pattern. -/
def moodTail (l : List Char) : Option NumLit :=
  match wsPlus l with
  | none => none
  | some r1 =>
    match matchLitCI "mood".data r1 with
    | none => none
    | some r2 =>
      let r3 := r2.dropWhile pyIsSpace
      match r3 with
      | '=' :: r4 =>
        let r5 := r4.dropWhile pyIsSpace
        match matchNumber r5 with
        | some (n, _) => some n
        | none => none
      | _ => none

/-- Lazy `(.+?)` before `\s+mood...`: extend the captured name one character
at a time (never across a newline), preferring the shortest capture. -/
def lazyNameScan (acc : List Char) : List Char → Option (List Char × NumLit)
  | [] => none
  | c :: cs =>
    if c = '\n' then none
    else
      match moodTail cs with
      | some n => some ((c :: acc).reverse, n)
      | none => lazyNameScan (c :: acc) cs

/-- Backtracking of the greedy `\s+` before the lazy name group: give back
trailing whitespace characters one at a time (the lazy group may consume
whitespace), keeping at least one consumed. -/
def gsGiveBack : List Char → List Char → Option (List Char × NumLit)
  | [], _ => none
  | c :: rs, g =>
    match lazyNameScan [] g with
    | some r => some r
    | none => gsGiveBack rs (c :: g)

/-- Attempt of `shift\s+group\s+(.+?)\s+mood\s*=\s*NUM` at one position. -/
def groupShiftAt (l : List Char) : Option (List Char × NumLit) :=
  match matchLitCI "shift".data l with
  | none => none
  | some r1 =>
    match wsPlus r1 with
    | none => none
    | some r2 =>
      match matchLitCI "group".data r2 with
      | none => none
      | some r3 => gsGiveBack (r3.takeWhile pyIsSpace).reverse (r3.dropWhile pyIsSpace)

/-- Search (`re.search`) of the group-shift pattern: leftmost matching position. -/
def groupShiftSearch : List Char → Option (List Char × NumLit)
  | [] => none
  | c :: cs =>
    match groupShiftAt (c :: cs) with
    | some r => some r
    | none => groupShiftSearch cs

/-- The three assignment keys recognised by `_parse_assignments`. -/
inductive AKey
  | mood
  | stance
  | resources
deriving DecidableEq

/-- Alternation `(mood|stance|resources)` (case-insensitive, in regex order). -/
def matchAKey (l : List Char) : Option (AKey × List Char) :=
  match matchLitCI "mood".data l with
  | some r => some (AKey.mood, r)
  | none =>
    match matchLitCI "stance".data l with
    | some r => some (AKey.stance, r)
    | none =>
      match matchLitCI "resources".data l with
      | some r => some (AKey.resources, r)
      | none => none

/-- One attempt of `(mood|stance|resources)\s*=\s*([+-]?\d+(?:\.\d+)?)` at the
head of the input. -/
def matchAssignAt (l : List Char) : Option ((AKey × NumLit) × List Char) :=
  match matchAKey l with
  | none => none
  | some (k, r1) =>
    let r2 := r1.dropWhile pyIsSpace
    match r2 with
    | '=' :: r3 =>
      let r4 := r3.dropWhile pyIsSpace
      match matchNumber r4 with
      | some (n, rest) => some ((k, n), rest)
      | none => none
    | _ => none

/-- Scan of `re.findall`: leftmost, non-overlapping matches.  The fuel starts at
the input length and dominates it throughout (every match consumes at least
one character), so the scan is never cut short. -/
def findAssignments : Nat → List Char → List (AKey × NumLit)
  | 0, _ => []
  | _, [] => []
  | fuel + 1, c :: cs =>
    match matchAssignAt (c :: cs) with
    | some (kv, rest) => kv :: findAssignments fuel rest
    | none => findAssignments fuel cs

/-- The clamp applied to `mood` and `stance` on every write. -/
def clampMS (v : ℚ) : ℚ := max (-1) (min 1 v)

/-- The clamp applied to `resources` on every write. -/
def clampRes (v : ℚ) : ℚ := max 0 (min 10000 v)

/-- The dict built by `_parse_assignments`: at most one (clamped) value per
recognised key, later fragments overwriting earlier ones. -/
structure Assignments where
  mood : Option ℚ
  stance : Option ℚ
  resources : Option ℚ
deriving DecidableEq

/-- Python truthiness of the parsed dict: falsy exactly when empty. -/
def Assignments.isEmpty (a : Assignments) : Bool :=
  a.mood.isNone && a.stance.isNone && a.resources.isNone

/-- Helper `_parse_assignments`: find all assignment fragments, clamp each value per
the state invariants, build the dict. -/
def parse_assignments (raw : List Char) : Assignments :=
  (findAssignments raw.length raw).foldl
    (fun a kv =>
      match kv.1 with
      | AKey.mood => { a with mood := some (clampMS kv.2.val) }
      | AKey.stance => { a with stance := some (clampMS kv.2.val) }
      | AKey.resources => { a with resources := some (clampRes kv.2.val) })
    ⟨none, none, none⟩

/-- The field writes of `_apply_agent_patch` on the state sub-dict: overwrite
each present key, then set `lastAction` to `"intervened"`. -/
def applyPatchFields (patch : Assignments) (st : AgentState) : AgentState :=
  let st1 := match patch.mood with
    | some v => { st with mood := some v }
    | none => st
  let st2 := match patch.stance with
    | some v => { st1 with stance := some v }
    | none => st1
  let st3 := match patch.resources with
    | some v => { st2 with resources := some v }
    | none => st2
  { st3 with lastAction := some "intervened".data }

/-- Helper `_apply_agent_patch`: apply a parsed patch to an agent's state sub-dict;
`false` (and no mutation) when the agent is missing or its state is falsy. -/
def apply_agent_patch (s : SimState) (aid : Int) (patch : Assignments) : SimState × Bool :=
  match resolveKey s.agents aid with
  | none => (s, false)
  | some k =>
    match (alistGet s.agents k).bind AgentRec.state with
    | none => (s, false)
    | some st =>
      if st.isFalsy then (s, false)
      else (setStateAt s k (applyPatchFields patch st), true)

/-- The mood update of the group-shift loop body: add the delta to the current
mood (absent mood reads as 0.0), clamped, and mark the last action. -/
def shiftMoodState (delta : ℚ) (st : AgentState) : AgentState :=
  { st with mood := some (clampMS (st.mood.getD 0 + delta)),
            lastAction := some "intervened_group_shift".data }

/-- One iteration of the group-shift loop body: resolve the agent's state
reference, skip (`continue`) when it is falsy, otherwise shift the mood;
the flag reports whether the agent was shifted (and is to be appended to
`affected_agents`). -/
def groupShiftStep (delta : ℚ) (s : SimState) (aid : Int) : SimState × Bool :=
  match resolveKey s.agents aid with
  | none => (s, false)
  | some k =>
    match (alistGet s.agents k).bind AgentRec.state with
    | none => (s, false)
    | some st =>
      if st.isFalsy then (s, false)
      else (setStateAt s k (shiftMoodState delta st), true)

/-- The group-shift loop over the resolved target ids. -/
def groupShiftLoop (delta : ℚ) : List Int → SimState → List Int → SimState × List Int
  | [], s, aff => (s, aff)
  | aid :: rest, s, aff =>
    match groupShiftStep delta s aid with
    | (s', true) => groupShiftLoop delta rest s' (aff ++ [aid])
    | (s', false) => groupShiftLoop delta rest s' aff

/-- Ascending insertion without duplicates. -/
def insertSorted (x : Int) : List Int → List Int
  | [] => [x]
  | y :: ys =>
    if x < y then x :: y :: ys
    else if x = y then y :: ys
    else y :: insertSorted x ys

/-- Python `sorted(set(l))`: the ascending duplicate-free enumeration of the
elements of `l`. -/
def sortedUnique (l : List Int) : List Int := l.foldr insertSorted []

/-- Does a string start with the given literal (Python `str.startswith`)? -/
def startsWithLit : List Char → List Char → Bool
  | [], _ => true
  | _ :: _, [] => false
  | a :: ps, b :: ls => a == b && startsWithLit ps ls

/-- Everything after the first `]` (Python `split("]", 1)[1]`). -/
def dropThroughRBracket : List Char → List Char
  | [] => []
  | c :: cs => if c = ']' then cs else dropThroughRBracket cs

/-- Does the normalized text carry a frontend group-mode prefix
(`startswith("[") and "]" in ...`)? -/
def bracketed (l : List Char) : Bool :=
  (match l with
   | '[' :: _ => true
   | _ => false) && l.contains ']'

/-- The command normalizer: strip, then discard a bracketed group prefix. -/
def normalize_command (command : List Char) : List Char :=
  let original := pyStrip command
  if bracketed original then pyStrip (dropThroughRBracket original) else original

/-- The recorded-only tags appended for `inject event` / `survey` /
`broadcast` prefixes of the lowercased command. -/
def tagEffects (lower : List Char) : List Effect :=
  (if startsWithLit "inject event".data lower then [Effect.event_injected] else []) ++
  (if startsWithLit "survey".data lower then [Effect.survey_triggered] else []) ++
  (if startsWithLit "broadcast".data lower then [Effect.broadcast_sent] else [])

/-- Accumulator threaded through the pattern blocks of
`_execute_intervention`. -/
structure ExecAcc where
  st : SimState
  affected : List Int
  effects : List Effect
  changed : Bool

/-- Run-control and speed block: `pause/stop`, `resume/run/start`, else the
speed pattern. -/
def phaseRunSpeed (lower : List Char) (a : ExecAcc) : ExecAcc :=
  if lower = "pause".data ∨ lower = "stop".data then
    { a with st := { a.st with is_running := false },
             effects := a.effects ++ [Effect.simulation_paused], changed := true }
  else if lower = "resume".data ∨ lower = "run".data ∨ lower = "start".data then
    { a with st := { a.st with is_running := true },
             effects := a.effects ++ [Effect.simulation_resumed], changed := true }
  else
    match speedSearch lower with
    | some n =>
      let sp := max (0.1 : ℚ) (min 10 n.val)
      { a with st := { a.st with speed := sp },
               effects := a.effects ++ [Effect.speed_set sp], changed := true }
    | none => a

/-- Direct agent assignment block (`set agent <id> <assignments>`). -/
def phaseSetAgent (sam : Option (Nat × List Char)) (a : ExecAcc) : ExecAcc :=
  match sam with
  | some (aid, rest) =>
    let patch := parse_assignments rest
    if patch.isEmpty then a
    else
      match apply_agent_patch a.st (aid : Int) patch with
      | (s', true) =>
        { st := s', affected := a.affected ++ [(aid : Int)],
          effects := a.effects ++ [Effect.agent_state_set], changed := true }
      | (s', false) => { a with st := s' }
  | none => a

/-- Implicit target assignment block: only when a target id was supplied and
the direct pattern did not match. -/
def phaseTarget (normalized : List Char) (target : Option Int)
    (sam : Option (Nat × List Char)) (a : ExecAcc) : ExecAcc :=
  match target, sam with
  | some tid, none =>
    let patch := parse_assignments normalized
    if patch.isEmpty then a
    else
      match apply_agent_patch a.st tid patch with
      | (s', true) =>
        { st := s', affected := a.affected ++ [tid],
          effects := a.effects ++ [Effect.target_agent_state_set], changed := true }
      | (s', false) => { a with st := s' }
  | _, _ => a

/-- Group mood shift block. -/
def phaseGroupShift (normalized : List Char) (a : ExecAcc) : ExecAcc :=
  match groupShiftSearch normalized with
  | some (rawName, n) =>
    let group_name := pyStrip rawName
    let delta := n.val
    let target_ids := agent_ids_by_group a.st group_name
    let p := groupShiftLoop delta target_ids a.st []
    { st := p.1, affected := a.affected ++ p.2,
      effects := if target_ids.isEmpty then a.effects
                 else a.effects ++ [Effect.group_mood_shift group_name],
      changed := if target_ids.isEmpty then a.changed else true }
  | none => a

/-- Core of `_execute_intervention` after command normalization: the pattern blocks in
source order, then the status rule and the default effect. -/
def execute_core (s : SimState) (normalized : List Char) (target : Option Int) :
    SimState × InterventionExecution :=
  let lower := toLowerChars normalized
  let sam := setAgentMatch normalized
  let a1 := phaseRunSpeed lower ⟨s, [], [], false⟩
  let a2 := phaseSetAgent sam a1
  let a3 := phaseTarget normalized target sam a2
  let a4 := phaseGroupShift normalized a3
  let effs := a4.effects ++ tagEffects lower
  let status := if a4.changed || !effs.isEmpty then "applied".data else "recorded_only".data
  let effs2 := if effs.isEmpty then [Effect.command_recorded] else effs
  (a4.st, ⟨status, normalized, effs2, sortedUnique a4.affected⟩)

/-- Engine entry `_execute_intervention(state, command, target_agent_id)`: normalize the
command, run the pattern blocks, return the mutated state and the structured
execution summary. -/
def execute_intervention (s : SimState) (command : String) (target : Option Int) :
    SimState × InterventionExecution :=
  execute_core s (normalize_command command.data) target

/-- Frame relation on one `agents` entry: same key, same profile snapshot,
same presence of the `state` sub-dict (only the four state keys may change). -/
def AgentEntryFrame (p q : AgentKey × AgentRec) : Prop :=
  q.1 = p.1 ∧ q.2.profile = p.2.profile ∧ q.2.state.isSome = p.2.state.isSome

/-- Frame relation on the `agents` dict: no agent added or removed, and each
entry satisfies the per-entry frame. -/
def AgentsFrame (ag ag' : List (AgentKey × AgentRec)) : Prop :=
  List.Forall₂ AgentEntryFrame ag ag'

/-- The frame of the engine on the whole simulation state: only `isRunning`,
`speed`, and the four state keys of existing agents may be written; every
other field (tick, selection, groups, histories, snapshot reference, config)
is preserved, and no agent is added or removed. -/
def EngineFrame (s s' : SimState) : Prop :=
  s'.config = s.config ∧ s'.tick = s.tick ∧
  s'.selected_agent_id = s.selected_agent_id ∧ s'.groups = s.groups ∧
  s'.logs = s.logs ∧ s'.events = s.events ∧ s'.feed = s.feed ∧
  s'.interventions = s.interventions ∧ s'.snapshots = s.snapshots ∧
  s'.current_snapshot_id = s.current_snapshot_id ∧
  AgentsFrame s.agents s'.agents

/-- A member of "Group A" with the given mood, for concrete witnesses. -/
def wAgent (mood : ℚ) : AgentRec :=
  ⟨some ⟨some "Group A".data, "p"⟩, some ⟨some mood, some 0, some 100, some "idle".data⟩⟩

/-- A state with three agents in "Group A" at moods -0.9, 0.0, 0.9. -/
def wState3 : SimState :=
  ⟨"cfg", 0, true, 1, none,
    [(AgentKey.int 1, wAgent (-(9/10))), (AgentKey.int 2, wAgent 0),
     (AgentKey.int 3, wAgent (9/10))], [], [], [], [], [], [], none⟩

/-- The mood stored for an agent, read through the state reference. -/
def agent_mood (s : SimState) (aid : Int) : Option ℚ :=
  (get_agent_state_ref s aid).bind AgentState.mood

/-- A state with a single agent (id 3) in "Group A". -/
def wState1 : SimState :=
  ⟨"cfg", 0, true, 1, none, [(AgentKey.int 3, wAgent 0)], [], [], [], [], [], [], none⟩

theorem stripLeading_eq_self {l : List Char} (h : ∀ c ∈ l, pyIsSpace c = false) :
    stripLeading l = l := by
  cases l with
  | nil => rfl
  | cons c cs =>
    have := h c (List.mem_cons_self c cs)
    simp [stripLeading, this]

theorem pyStrip_eq_self {l : List Char} (h : ∀ c ∈ l, pyIsSpace c = false) :
    pyStrip l = l := by
  unfold pyStrip
  rw [stripLeading_eq_self h]
  rw [stripLeading_eq_self (by intro c hc; exact h c (List.mem_reverse.mp hc))]
  exact List.reverse_reverse l

theorem decValue_append_digit (l : List Char) (c : Char) :
    decValue (l ++ [c]) = decValue l * 10 + digitVal c := by
  simp [decValue, List.foldl_append]

theorem digitVal_digitChar {d : Nat} (h : d < 10) : digitVal (digitChar d) = d := by
  interval_cases d <;> decide

theorem digitChar_isDigit {d : Nat} (h : d < 10) : (digitChar d).isDigit = true := by
  interval_cases d <;> decide

theorem natToChars_all_digits : ∀ n, ∀ c ∈ natToChars n, c.isDigit = true := by
  intro n
  induction n using Nat.strong_induction_on with
  | _ n ih =>
    rw [natToChars]
    split
    · intro c hc
      rw [List.mem_singleton] at hc
      subst hc
      exact digitChar_isDigit (by omega)
    · intro c hc
      rcases List.mem_append.mp hc with h1 | h2
      · exact ih (n / 10) (Nat.div_lt_self (by omega) (by omega)) c h1
      · rw [List.mem_singleton] at h2
        subst h2
        exact digitChar_isDigit (Nat.mod_lt _ (by omega))

theorem natToChars_ne_nil (n : Nat) : natToChars n ≠ [] := by
  rw [natToChars]
  split
  · simp
  · simp

theorem decValue_natToChars : ∀ n, decValue (natToChars n) = n := by
  intro n
  induction n using Nat.strong_induction_on with
  | _ n ih =>
    rw [natToChars]
    split
    · next h =>
      simp [decValue, digitVal_digitChar h]
    · next h =>
      rw [decValue_append_digit, ih (n / 10) (Nat.div_lt_self (by omega) (by omega)),
        digitVal_digitChar (Nat.mod_lt _ (by omega))]
      omega

theorem isDigit_not_space {c : Char} (h : c.isDigit = true) : pyIsSpace c = false := by
  by_contra hc
  rw [Bool.not_eq_false, pyIsSpace] at hc
  simp only [Bool.or_eq_true, decide_eq_true_eq] at hc
  rcases hc with ((((h1 | h1) | h1) | h1) | h1) | h1 <;> subst h1 <;> simp_all

theorem isDigit_ne_dash {c : Char} (h : c.isDigit = true) : c ≠ '-' := by
  intro he; subst he; simp_all

theorem isDigit_ne_plus {c : Char} (h : c.isDigit = true) : c ≠ '+' := by
  intro he; subst he; simp_all

theorem pyIntOfChars_natToChars (n : Nat) : pyIntOfChars (natToChars n) = some (n : Int) := by
  have hdig := natToChars_all_digits n
  have hstrip : pyStrip (natToChars n) = natToChars n :=
    pyStrip_eq_self (fun c hc => isDigit_not_space (hdig c hc))
  obtain ⟨c, cs, hcons⟩ := List.exists_cons_of_ne_nil (natToChars_ne_nil n)
  have hc : c.isDigit = true := hdig c (by rw [hcons]; exact List.mem_cons_self c cs)
  have hsign : splitSign (natToChars n) = (false, natToChars n) := by
    rw [hcons]
    simp [splitSign, isDigit_ne_dash hc, isDigit_ne_plus hc]
  have hne : (natToChars n).isEmpty = false := by
    rw [hcons]; rfl
  have hall : (natToChars n).all Char.isDigit = true := by
    rw [List.all_eq_true]; exact hdig
  unfold pyIntOfChars
  simp only [hstrip, hsign, hne, hall, Bool.false_eq_true, if_false, if_true]
  rw [decValue_natToChars]

theorem pyIntOfChars_intToChars (i : Int) : pyIntOfChars (intToChars i) = some i := by
  cases i with
  | ofNat n => exact pyIntOfChars_natToChars n
  | negSucc n =>
    have hdig := natToChars_all_digits (n + 1)
    have hnospace : ∀ c ∈ intToChars (Int.negSucc n), pyIsSpace c = false := by
      intro c hc
      rcases List.mem_cons.mp hc with h1 | h2
      · subst h1; decide
      · exact isDigit_not_space (hdig c h2)
    have hstrip := pyStrip_eq_self hnospace
    have hsign : splitSign (intToChars (Int.negSucc n)) = (true, natToChars (n + 1)) := by
      simp [intToChars, splitSign]
    have hne : (natToChars (n + 1)).isEmpty = false := by
      obtain ⟨c, cs, hcons⟩ := List.exists_cons_of_ne_nil (natToChars_ne_nil (n + 1))
      rw [hcons]; rfl
    have hall : (natToChars (n + 1)).all Char.isDigit = true := by
      rw [List.all_eq_true]; exact hdig
    unfold pyIntOfChars
    simp only [hstrip, hsign, hne, hall, Bool.false_eq_true, if_false, if_true]
    rw [decValue_natToChars]
    rw [Int.negSucc_eq]
    congr 1

theorem intToChars_injective : Function.Injective intToChars := by
  intro a b h
  have := pyIntOfChars_intToChars a
  rw [h, pyIntOfChars_intToChars b] at this
  exact (Option.some.inj this).symm

theorem mem_insertSorted (x y : Int) (l : List Int) :
    y ∈ insertSorted x l ↔ y = x ∨ y ∈ l := by
  induction l with
  | nil => simp [insertSorted]
  | cons z zs ih =>
    unfold insertSorted
    by_cases h1 : x < z
    · simp [h1]
      try tauto
    · by_cases h2 : x = z
      · subst h2
        simp [h1]
        try tauto
      · simp [h1, h2, ih]
        try tauto

theorem sorted_insertSorted (x : Int) (l : List Int) (h : List.Sorted (· < ·) l) :
    List.Sorted (· < ·) (insertSorted x l) := by
  induction l with
  | nil => simp [insertSorted]
  | cons z zs ih =>
    rw [List.sorted_cons] at h
    obtain ⟨hz, hzs⟩ := h
    unfold insertSorted
    by_cases h1 : x < z
    · rw [if_pos h1, List.sorted_cons]
      refine ⟨?_, List.sorted_cons.mpr ⟨hz, hzs⟩⟩
      intro b hb
      rcases List.mem_cons.mp hb with hb | hb
      · omega
      · have := hz b hb
        omega
    · rw [if_neg h1]
      by_cases h2 : x = z
      · rw [if_pos h2, List.sorted_cons]
        exact ⟨hz, hzs⟩
      · rw [if_neg h2, List.sorted_cons]
        refine ⟨?_, ih hzs⟩
        intro b hb
        rcases (mem_insertSorted x b zs).mp hb with hb | hb
        · omega
        · exact hz b hb

theorem sortedUnique_sorted (l : List Int) : List.Sorted (· < ·) (sortedUnique l) := by
  induction l with
  | nil => simp [sortedUnique]
  | cons c cs ih => exact sorted_insertSorted c _ ih

theorem sortedUnique_nodup (l : List Int) : (sortedUnique l).Nodup :=
  (sortedUnique_sorted l).imp (fun h => ne_of_lt h)

theorem mem_sortedUnique (l : List Int) (y : Int) : y ∈ sortedUnique l ↔ y ∈ l := by
  induction l with
  | nil => simp [sortedUnique]
  | cons c cs ih =>
    show y ∈ insertSorted c (sortedUnique cs) ↔ _
    rw [mem_insertSorted, ih]
    simp

theorem alistGet_alistUpdate_self {β : Type} (l : List (AgentKey × β)) (k : AgentKey)
    (f : β → β) : alistGet (alistUpdate l k f) k = (alistGet l k).map f := by
  induction l with
  | nil => rfl
  | cons p t ih =>
    obtain ⟨k', v⟩ := p
    by_cases h : k' = k
    · simp [alistUpdate, alistGet, h]
    · simp [alistUpdate, alistGet, h, ih]

theorem alistGet_alistUpdate_ne {β : Type} (l : List (AgentKey × β)) (k k' : AgentKey)
    (f : β → β) (h : k' ≠ k) : alistGet (alistUpdate l k f) k' = alistGet l k' := by
  induction l with
  | nil => rfl
  | cons p t ih =>
    obtain ⟨k0, v⟩ := p
    by_cases h0 : k0 = k
    · subst h0
      have : k0 ≠ k' := fun he => h (he ▸ rfl)
      simp [alistUpdate, alistGet, this]
    · by_cases h1 : k0 = k'
      · simp [alistUpdate, alistGet, h0, h1, h]
      · simp [alistUpdate, alistGet, h0, h1, ih]

theorem alistUpdate_keys {β : Type} (l : List (AgentKey × β)) (k : AgentKey) (f : β → β) :
    (alistUpdate l k f).map Prod.fst = l.map Prod.fst := by
  induction l with
  | nil => rfl
  | cons p t ih =>
    obtain ⟨k0, v⟩ := p
    by_cases h : k0 = k
    · simp [alistUpdate, h]
    · simp [alistUpdate, h, ih]

theorem alistGet_isSome_alistUpdate {β : Type} (l : List (AgentKey × β)) (k k' : AgentKey)
    (f : β → β) : (alistGet (alistUpdate l k f) k').isSome = (alistGet l k').isSome := by
  by_cases h : k' = k
  · subst h
    rw [alistGet_alistUpdate_self]
    cases alistGet l k' <;> rfl
  · rw [alistGet_alistUpdate_ne _ _ _ _ h]

theorem resolveKey_alistUpdate (ag : List (AgentKey × AgentRec)) (k : AgentKey)
    (f : AgentRec → AgentRec) (aid : Int) :
    resolveKey (alistUpdate ag k f) aid = resolveKey ag aid := by
  unfold resolveKey
  rw [alistGet_isSome_alistUpdate, alistGet_isSome_alistUpdate]

theorem resolveKey_forms {ag : List (AgentKey × AgentRec)} {aid : Int} {k : AgentKey}
    (h : resolveKey ag aid = some k) :
    k = AgentKey.int aid ∨ k = AgentKey.str (intToChars aid) := by
  unfold resolveKey at h
  split at h
  · exact Or.inl (Option.some.inj h).symm
  · split at h
    · exact Or.inr (Option.some.inj h).symm
    · exact absurd h (by simp)

theorem resolveKey_get_isSome {ag : List (AgentKey × AgentRec)} {aid : Int} {k : AgentKey}
    (h : resolveKey ag aid = some k) : (alistGet ag k).isSome = true := by
  unfold resolveKey at h
  split at h
  · next hs =>
    rw [Option.some.inj h] at hs
    exact hs
  · split at h
    · next hs =>
      rw [Option.some.inj h] at hs
      exact hs
    · exact absurd h (by simp)

theorem resolveKey_ne_of_ne {ag : List (AgentKey × AgentRec)} {a b : Int}
    {ka kb : AgentKey} (ha : resolveKey ag a = some ka) (hb : resolveKey ag b = some kb)
    (hab : a ≠ b) : ka ≠ kb := by
  rcases resolveKey_forms ha with h1 | h1 <;> rcases resolveKey_forms hb with h2 | h2 <;>
    subst h1 <;> subst h2 <;> intro he
  · exact hab (AgentKey.int.inj he)
  · exact AgentKey.noConfusion he
  · exact AgentKey.noConfusion he
  · exact hab (intToChars_injective (AgentKey.str.inj he))

theorem setStateAt_agents (s : SimState) (k : AgentKey) (st : AgentState) :
    (setStateAt s k st).agents = alistUpdate s.agents k (fun r => { r with state := some st }) :=
  rfl

theorem ref_setStateAt_self {s : SimState} {aid : Int} {k : AgentKey}
    (h : resolveKey s.agents aid = some k) (st : AgentState) :
    get_agent_state_ref (setStateAt s k st) aid = some st := by
  unfold get_agent_state_ref
  rw [setStateAt_agents, resolveKey_alistUpdate, h]
  simp only [Option.bind]
  rw [alistGet_alistUpdate_self]
  obtain ⟨r, hr⟩ := Option.isSome_iff_exists.mp (resolveKey_get_isSome h)
  rw [hr]
  rfl

theorem ref_setStateAt_other {s : SimState} {aid : Int} {k : AgentKey} {st : AgentState}
    (h : resolveKey s.agents aid ≠ some k) :
    get_agent_state_ref (setStateAt s k st) aid = get_agent_state_ref s aid := by
  unfold get_agent_state_ref
  rw [setStateAt_agents, resolveKey_alistUpdate]
  cases hres : resolveKey s.agents aid with
  | none => rfl
  | some k2 =>
    have hk : k2 ≠ k := fun he => h (by rw [hres, he])
    simp only [Option.bind]
    rw [alistGet_alistUpdate_ne _ _ _ _ hk]

theorem groupFromEntry_alistUpdate {ag : List (AgentKey × AgentRec)} {k : AgentKey}
    {st0 : AgentState} (h : (alistGet ag k).bind AgentRec.state = some st0)
    (st : AgentState) (q : AgentKey) :
    groupFromEntry (alistGet (alistUpdate ag k (fun r => { r with state := some st })) q) =
    groupFromEntry (alistGet ag q) := by
  by_cases hq : q = k
  · subst hq
    rw [alistGet_alistUpdate_self]
    cases hg : alistGet ag q with
    | none => rfl
    | some r =>
      rw [hg] at h
      simp only [Option.bind] at h
      simp [groupFromEntry, AgentRec.isFalsy, h]
  · rw [alistGet_alistUpdate_ne _ _ _ _ hq]

theorem group_setStateAt {s : SimState} {k : AgentKey} {st0 : AgentState}
    (h : (alistGet s.agents k).bind AgentRec.state = some st0) (st : AgentState) (aid : Int) :
    get_agent_group (setStateAt s k st) aid = get_agent_group s aid := by
  unfold get_agent_group
  rw [setStateAt_agents, groupFromEntry_alistUpdate h, groupFromEntry_alistUpdate h]

theorem filterMapKey_alistUpdate (l : List (AgentKey × AgentRec)) (k : AgentKey)
    (f : AgentRec → AgentRec) :
    (alistUpdate l k f).filterMap (fun p => keyToInt p.1) =
    l.filterMap (fun p => keyToInt p.1) := by
  induction l with
  | nil => rfl
  | cons p t ih =>
    obtain ⟨k0, v⟩ := p
    by_cases h : k0 = k
    · simp only [alistUpdate, if_pos h, List.filterMap_cons]
    · simp only [alistUpdate, if_neg h, List.filterMap_cons]
      cases keyToInt k0 <;> simp [ih]

theorem idList_setStateAt (s : SimState) (k : AgentKey) (st : AgentState) :
    normalize_agent_id_list (setStateAt s k st) = normalize_agent_id_list s := by
  unfold normalize_agent_id_list
  rw [setStateAt_agents, filterMapKey_alistUpdate]

theorem ids_by_group_setStateAt {s : SimState} {k : AgentKey} {st0 : AgentState}
    (h : (alistGet s.agents k).bind AgentRec.state = some st0) (st : AgentState)
    (name : List Char) :
    agent_ids_by_group (setStateAt s k st) name = agent_ids_by_group s name := by
  unfold agent_ids_by_group
  rw [idList_setStateAt]
  exact List.filter_congr (fun aid _ => by rw [group_setStateAt h])

theorem agentsFrame_refl (ag : List (AgentKey × AgentRec)) : AgentsFrame ag ag := by
  induction ag with
  | nil => exact List.Forall₂.nil
  | cons p t ih => exact List.Forall₂.cons ⟨rfl, rfl, rfl⟩ ih

theorem agentsFrame_trans {a b c : List (AgentKey × AgentRec)}
    (h1 : AgentsFrame a b) (h2 : AgentsFrame b c) : AgentsFrame a c := by
  induction h1 generalizing c with
  | nil =>
    cases h2
    exact List.Forall₂.nil
  | cons hpq t ih =>
    cases h2 with
    | cons hqr t2 =>
      exact List.Forall₂.cons
        ⟨hqr.1.trans hpq.1, hqr.2.1.trans hpq.2.1, hqr.2.2.trans hpq.2.2⟩ (ih t2)

theorem agentsFrame_alistUpdate_state {ag : List (AgentKey × AgentRec)} {k : AgentKey}
    {st0 : AgentState} (h : (alistGet ag k).bind AgentRec.state = some st0)
    (st : AgentState) :
    AgentsFrame ag (alistUpdate ag k (fun r => { r with state := some st })) := by
  induction ag with
  | nil => exact List.Forall₂.nil
  | cons p t ih =>
    obtain ⟨k0, v⟩ := p
    by_cases hk : k0 = k
    · rw [alistUpdate, if_pos hk]
      refine List.Forall₂.cons ⟨rfl, rfl, ?_⟩ (agentsFrame_refl t)
      rw [alistGet, if_pos hk] at h
      simp only [Option.bind] at h
      rw [h]
      rfl
    · rw [alistUpdate, if_neg hk]
      refine List.Forall₂.cons ⟨rfl, rfl, rfl⟩ (ih ?_)
      rw [alistGet, if_neg hk] at h
      exact h

theorem engineFrame_refl (s : SimState) : EngineFrame s s :=
  ⟨rfl, rfl, rfl, rfl, rfl, rfl, rfl, rfl, rfl, rfl, agentsFrame_refl s.agents⟩

theorem engineFrame_trans {a b c : SimState} (h1 : EngineFrame a b)
    (h2 : EngineFrame b c) : EngineFrame a c :=
  ⟨h2.1.trans h1.1, h2.2.1.trans h1.2.1, h2.2.2.1.trans h1.2.2.1,
   h2.2.2.2.1.trans h1.2.2.2.1, h2.2.2.2.2.1.trans h1.2.2.2.2.1,
   h2.2.2.2.2.2.1.trans h1.2.2.2.2.2.1, h2.2.2.2.2.2.2.1.trans h1.2.2.2.2.2.2.1,
   h2.2.2.2.2.2.2.2.1.trans h1.2.2.2.2.2.2.2.1,
   h2.2.2.2.2.2.2.2.2.1.trans h1.2.2.2.2.2.2.2.2.1,
   h2.2.2.2.2.2.2.2.2.2.1.trans h1.2.2.2.2.2.2.2.2.2.1,
   agentsFrame_trans h1.2.2.2.2.2.2.2.2.2.2 h2.2.2.2.2.2.2.2.2.2.2⟩

theorem engineFrame_setStateAt {s : SimState} {k : AgentKey} {st0 : AgentState}
    (h : (alistGet s.agents k).bind AgentRec.state = some st0) (st : AgentState) :
    EngineFrame s (setStateAt s k st) :=
  ⟨rfl, rfl, rfl, rfl, rfl, rfl, rfl, rfl, rfl, rfl,
   agentsFrame_alistUpdate_state h st⟩

theorem ref_agents_congr {s s' : SimState} (h : s'.agents = s.agents) (aid : Int) :
    get_agent_state_ref s' aid = get_agent_state_ref s aid := by
  unfold get_agent_state_ref
  rw [h]

theorem group_agents_congr {s s' : SimState} (h : s'.agents = s.agents) (aid : Int) :
    get_agent_group s' aid = get_agent_group s aid := by
  unfold get_agent_group
  rw [h]

theorem ids_by_group_agents_congr {s s' : SimState} (h : s'.agents = s.agents)
    (name : List Char) : agent_ids_by_group s' name = agent_ids_by_group s name := by
  unfold agent_ids_by_group normalize_agent_id_list
  rw [h]
  exact List.filter_congr (fun aid _ => by rw [group_agents_congr h])

theorem stateRefFalsy_false_iff (o : Option AgentState) :
    stateRefFalsy o = false ↔ ∃ st, o = some st ∧ st.isFalsy = false := by
  cases o <;> simp [stateRefFalsy]

theorem ref_some_parts {s : SimState} {aid : Int} {st : AgentState}
    (h : get_agent_state_ref s aid = some st) :
    ∃ k, resolveKey s.agents aid = some k ∧
      (alistGet s.agents k).bind AgentRec.state = some st := by
  unfold get_agent_state_ref at h
  cases hres : resolveKey s.agents aid with
  | none => rw [hres] at h; exact absurd h (by simp)
  | some k =>
    rw [hres] at h
    simp only [Option.bind] at h
    exact ⟨k, rfl, h⟩

theorem EngineFrame_set_running (s : SimState) (b : Bool) :
    EngineFrame s { s with is_running := b } :=
  ⟨rfl, rfl, rfl, rfl, rfl, rfl, rfl, rfl, rfl, rfl, agentsFrame_refl s.agents⟩

theorem EngineFrame_set_speed (s : SimState) (v : ℚ) :
    EngineFrame s { s with speed := v } :=
  ⟨rfl, rfl, rfl, rfl, rfl, rfl, rfl, rfl, rfl, rfl, agentsFrame_refl s.agents⟩

theorem phaseRunSpeed_st_agents (lower : List Char) (a : ExecAcc) :
    (phaseRunSpeed lower a).st.agents = a.st.agents := by
  unfold phaseRunSpeed
  split_ifs
  · rfl
  · rfl
  · cases hs : speedSearch lower <;> simp only [hs]

theorem phaseRunSpeed_affected (lower : List Char) (a : ExecAcc) :
    (phaseRunSpeed lower a).affected = a.affected := by
  unfold phaseRunSpeed
  split_ifs
  · rfl
  · rfl
  · cases hs : speedSearch lower <;> simp only [hs]

theorem phaseRunSpeed_frame (lower : List Char) (a : ExecAcc) :
    EngineFrame a.st (phaseRunSpeed lower a).st := by
  unfold phaseRunSpeed
  split_ifs
  · exact EngineFrame_set_running a.st false
  · exact EngineFrame_set_running a.st true
  · cases hs : speedSearch lower <;> simp only [hs]
    · exact EngineFrame_set_speed a.st _
    · exact engineFrame_refl a.st

theorem apply_agent_patch_frame (s : SimState) (aid : Int) (patch : Assignments) :
    EngineFrame s (apply_agent_patch s aid patch).1 := by
  unfold apply_agent_patch
  split
  · exact engineFrame_refl s
  · split
    · exact engineFrame_refl s
    · split
      · exact engineFrame_refl s
      · next st hst _hf =>
        exact engineFrame_setStateAt hst _

theorem phaseSetAgent_frame (sam : Option (Nat × List Char)) (a : ExecAcc) :
    EngineFrame a.st (phaseSetAgent sam a).st := by
  unfold phaseSetAgent
  cases sam with
  | none => exact engineFrame_refl a.st
  | some p =>
    obtain ⟨aid, rest⟩ := p
    by_cases hp : (parse_assignments rest).isEmpty = true
    · simp only [hp, if_true]
      exact engineFrame_refl a.st
    · simp only [hp, if_false]
      have := apply_agent_patch_frame a.st (aid : Int) (parse_assignments rest)
      cases happ : apply_agent_patch a.st (aid : Int) (parse_assignments rest) with
      | mk s' ok =>
        rw [happ] at this
        cases ok <;> exact this

theorem phaseTarget_frame (normalized : List Char) (target : Option Int)
    (sam : Option (Nat × List Char)) (a : ExecAcc) :
    EngineFrame a.st (phaseTarget normalized target sam a).st := by
  unfold phaseTarget
  cases target with
  | none => exact engineFrame_refl a.st
  | some tid =>
    cases sam with
    | some p => exact engineFrame_refl a.st
    | none =>
      by_cases hp : (parse_assignments normalized).isEmpty = true
      · simp only [hp, if_true]
        exact engineFrame_refl a.st
      · simp only [hp, if_false]
        have := apply_agent_patch_frame a.st tid (parse_assignments normalized)
        cases happ : apply_agent_patch a.st tid (parse_assignments normalized) with
        | mk s' ok =>
          rw [happ] at this
          cases ok <;> exact this

theorem groupShiftStep_frame (delta : ℚ) (s : SimState) (aid : Int) :
    EngineFrame s (groupShiftStep delta s aid).1 := by
  unfold groupShiftStep
  split
  · exact engineFrame_refl s
  · split
    · exact engineFrame_refl s
    · split
      · exact engineFrame_refl s
      · next st hst _hf =>
        exact engineFrame_setStateAt hst _

theorem groupShiftStep_false {delta : ℚ} {s s' : SimState} {aid : Int}
    (h : groupShiftStep delta s aid = (s', false)) : s' = s := by
  unfold groupShiftStep at h
  split at h
  · exact (Prod.mk.injEq .. ▸ h).1.symm
  · split at h
    · exact (Prod.mk.injEq .. ▸ h).1.symm
    · split at h
      · exact (Prod.mk.injEq .. ▸ h).1.symm
      · exact absurd (Prod.mk.injEq .. ▸ h).2 (by simp)

theorem groupShiftLoop_frame (delta : ℚ) :
    ∀ (ids : List Int) (s : SimState) (aff : List Int),
    EngineFrame s (groupShiftLoop delta ids s aff).1 := by
  intro ids
  induction ids with
  | nil => intro s aff; exact engineFrame_refl s
  | cons aid rest ih =>
    intro s aff
    unfold groupShiftLoop
    split
    · next s' heq =>
      have hf := groupShiftStep_frame delta s aid
      rw [heq] at hf
      exact engineFrame_trans hf (ih s' _)
    · next s' heq =>
      have hf := groupShiftStep_frame delta s aid
      rw [heq] at hf
      exact engineFrame_trans hf (ih s' _)

theorem phaseGroupShift_frame (normalized : List Char) (a : ExecAcc) :
    EngineFrame a.st (phaseGroupShift normalized a).st := by
  unfold phaseGroupShift
  cases hgs : groupShiftSearch normalized with
  | none => exact engineFrame_refl a.st
  | some p => exact groupShiftLoop_frame p.2.val _ a.st []

theorem groupShiftStep_true {delta : ℚ} {s : SimState} {aid : Int} {st : AgentState}
    (h : get_agent_state_ref s aid = some st) (hf : st.isFalsy = false) :
    ∃ k, resolveKey s.agents aid = some k ∧
      (alistGet s.agents k).bind AgentRec.state = some st ∧
      groupShiftStep delta s aid = (setStateAt s k (shiftMoodState delta st), true) := by
  obtain ⟨k, hres, hget⟩ := ref_some_parts h
  refine ⟨k, hres, hget, ?_⟩
  unfold groupShiftStep
  simp only [hres, hget, hf, Bool.false_eq_true, if_false]

theorem ref_setStateAt_of_ne {s : SimState} {aid b : Int} {k : AgentKey}
    (hres : resolveKey s.agents aid = some k) (hb : b ≠ aid) (st : AgentState) :
    get_agent_state_ref (setStateAt s k st) b = get_agent_state_ref s b := by
  apply ref_setStateAt_other
  cases hresb : resolveKey s.agents b with
  | none => simp
  | some kb =>
    have hne : kb ≠ k := resolveKey_ne_of_ne hresb hres hb
    simp [hne]

theorem groupShiftLoop_spec (delta : ℚ) :
    ∀ (ids : List Int) (s : SimState) (aff : List Int),
    ids.Nodup →
    (∀ a ∈ ids, stateRefFalsy (get_agent_state_ref s a) = false) →
    (groupShiftLoop delta ids s aff).2 = aff ++ ids ∧
    (∀ a ∈ ids, get_agent_state_ref (groupShiftLoop delta ids s aff).1 a =
        (get_agent_state_ref s a).map (shiftMoodState delta)) ∧
    (∀ b : Int, b ∉ ids →
        get_agent_state_ref (groupShiftLoop delta ids s aff).1 b =
        get_agent_state_ref s b) := by
  intro ids
  induction ids with
  | nil =>
    intro s aff _ _
    exact ⟨by simp [groupShiftLoop], by simp, fun b _ => rfl⟩
  | cons aid rest ih =>
    intro s aff hnd hwf
    have hwa := hwf aid (List.mem_cons_self aid rest)
    rw [stateRefFalsy_false_iff] at hwa
    obtain ⟨st, hrefs, hfalse⟩ := hwa
    obtain ⟨k, hres, hget, hstep⟩ := @groupShiftStep_true delta _ _ _ hrefs hfalse
    have hnd' := List.nodup_cons.mp hnd
    have hloop : groupShiftLoop delta (aid :: rest) s aff =
        groupShiftLoop delta rest (setStateAt s k (shiftMoodState delta st)) (aff ++ [aid]) := by
      simp only [groupShiftLoop, hstep]
    have hrefs1 : ∀ b : Int, b ≠ aid →
        get_agent_state_ref (setStateAt s k (shiftMoodState delta st)) b =
        get_agent_state_ref s b :=
      fun b hb => ref_setStateAt_of_ne hres hb _
    have hwf' : ∀ a ∈ rest,
        stateRefFalsy (get_agent_state_ref (setStateAt s k (shiftMoodState delta st)) a) = false := by
      intro a ha
      rw [hrefs1 a (fun he => hnd'.1 (he ▸ ha))]
      exact hwf a (List.mem_cons_of_mem _ ha)
    obtain ⟨ih1, ih2, ih3⟩ := ih (setStateAt s k (shiftMoodState delta st)) (aff ++ [aid]) hnd'.2 hwf'
    refine ⟨?_, ?_, ?_⟩
    · rw [hloop, ih1]
      simp
    · intro a ha
      rcases List.mem_cons.mp ha with rfl | ha2
      · rw [hloop, ih3 a hnd'.1, ref_setStateAt_self hres, hrefs]
        rfl
      · rw [hloop, ih2 a ha2, hrefs1 a (fun he => hnd'.1 (he ▸ ha2))]
    · intro b hb
      rw [hloop, ih3 b (fun h2 => hb (List.mem_cons_of_mem _ h2)),
        hrefs1 b (fun he => hb (he ▸ List.mem_cons_self aid rest))]

theorem phaseRunSpeed_noop {lower : List Char} (a : ExecAcc)
    (h1 : ¬(lower = "pause".data ∨ lower = "stop".data))
    (h2 : ¬(lower = "resume".data ∨ lower = "run".data ∨ lower = "start".data))
    (h3 : speedSearch lower = none) : phaseRunSpeed lower a = a := by
  unfold phaseRunSpeed
  rw [if_neg h1, if_neg h2]
  simp only [h3]

theorem phaseSetAgent_none (a : ExecAcc) : phaseSetAgent none a = a := rfl

theorem phaseTarget_none_target (n : List Char) (sam : Option (Nat × List Char))
    (a : ExecAcc) : phaseTarget n none sam a = a := by
  cases sam <;> rfl

theorem phaseTarget_some_sam (n : List Char) (t : Option Int) (p : Nat × List Char)
    (a : ExecAcc) : phaseTarget n t (some p) a = a := by
  cases t <;> rfl

theorem phaseGroupShift_noop {n : List Char} (a : ExecAcc)
    (h : groupShiftSearch n = none) : phaseGroupShift n a = a := by
  unfold phaseGroupShift
  simp only [h]

theorem apply_agent_patch_same (s : SimState) (aid : Int) (patch : Assignments) :
    (apply_agent_patch s aid patch).1.speed = s.speed ∧
    (apply_agent_patch s aid patch).1.is_running = s.is_running := by
  unfold apply_agent_patch
  split
  · exact ⟨rfl, rfl⟩
  · split
    · exact ⟨rfl, rfl⟩
    · split
      · exact ⟨rfl, rfl⟩
      · exact ⟨rfl, rfl⟩

theorem groupShiftStep_same (delta : ℚ) (s : SimState) (aid : Int) :
    (groupShiftStep delta s aid).1.speed = s.speed ∧
    (groupShiftStep delta s aid).1.is_running = s.is_running := by
  unfold groupShiftStep
  split
  · exact ⟨rfl, rfl⟩
  · split
    · exact ⟨rfl, rfl⟩
    · split
      · exact ⟨rfl, rfl⟩
      · exact ⟨rfl, rfl⟩

theorem groupShiftLoop_same (delta : ℚ) :
    ∀ (ids : List Int) (s : SimState) (aff : List Int),
    (groupShiftLoop delta ids s aff).1.speed = s.speed ∧
    (groupShiftLoop delta ids s aff).1.is_running = s.is_running := by
  intro ids
  induction ids with
  | nil => intro s aff; exact ⟨rfl, rfl⟩
  | cons aid rest ih =>
    intro s aff
    unfold groupShiftLoop
    split
    · next s' heq =>
      have hs := groupShiftStep_same delta s aid
      rw [heq] at hs
      exact ⟨(ih s' _).1.trans hs.1, (ih s' _).2.trans hs.2⟩
    · next s' heq =>
      have hs := groupShiftStep_same delta s aid
      rw [heq] at hs
      exact ⟨(ih s' _).1.trans hs.1, (ih s' _).2.trans hs.2⟩

theorem phaseSetAgent_same (sam : Option (Nat × List Char)) (a : ExecAcc) :
    (phaseSetAgent sam a).st.speed = a.st.speed ∧
    (phaseSetAgent sam a).st.is_running = a.st.is_running := by
  cases sam with
  | none => exact ⟨rfl, rfl⟩
  | some p =>
    obtain ⟨aid, rest⟩ := p
    simp only [phaseSetAgent]
    split_ifs with hp
    · exact ⟨rfl, rfl⟩
    · split
      · next s' heq =>
        have hs := apply_agent_patch_same a.st (aid : Int) (parse_assignments rest)
        rw [heq] at hs
        exact ⟨hs.1, hs.2⟩
      · next s' heq =>
        have hs := apply_agent_patch_same a.st (aid : Int) (parse_assignments rest)
        rw [heq] at hs
        exact ⟨hs.1, hs.2⟩

theorem phaseTarget_same (n : List Char) (t : Option Int) (sam : Option (Nat × List Char))
    (a : ExecAcc) :
    (phaseTarget n t sam a).st.speed = a.st.speed ∧
    (phaseTarget n t sam a).st.is_running = a.st.is_running := by
  cases t with
  | none => exact ⟨rfl, rfl⟩
  | some tid =>
    cases sam with
    | some p => exact ⟨rfl, rfl⟩
    | none =>
      simp only [phaseTarget]
      split_ifs with hp
      · exact ⟨rfl, rfl⟩
      · split
        · next s' heq =>
          have hs := apply_agent_patch_same a.st tid (parse_assignments n)
          rw [heq] at hs
          exact ⟨hs.1, hs.2⟩
        · next s' heq =>
          have hs := apply_agent_patch_same a.st tid (parse_assignments n)
          rw [heq] at hs
          exact ⟨hs.1, hs.2⟩

theorem phaseGroupShift_same (n : List Char) (a : ExecAcc) :
    (phaseGroupShift n a).st.speed = a.st.speed ∧
    (phaseGroupShift n a).st.is_running = a.st.is_running := by
  unfold phaseGroupShift
  cases hgs : groupShiftSearch n with
  | none => exact ⟨rfl, rfl⟩
  | some p => exact groupShiftLoop_same p.2.val _ a.st []

theorem phaseRunSpeed_effects_shape (lower : List Char) (a : ExecAcc) :
    ∃ e, (phaseRunSpeed lower a).effects = a.effects ++ e ∧
      ∀ x ∈ e, x = Effect.simulation_paused ∨ x = Effect.simulation_resumed ∨
        ∃ v, x = Effect.speed_set v := by
  unfold phaseRunSpeed
  split_ifs
  · exact ⟨[Effect.simulation_paused], rfl, by simp⟩
  · exact ⟨[Effect.simulation_resumed], rfl, by simp⟩
  · cases hs : speedSearch lower with
    | none => exact ⟨[], by simp, by simp⟩
    | some n =>
      refine ⟨[Effect.speed_set (max (0.1 : ℚ) (min 10 n.val))], rfl, ?_⟩
      simp

theorem phaseSetAgent_effects_shape (sam : Option (Nat × List Char)) (a : ExecAcc) :
    (phaseSetAgent sam a).effects = a.effects ∨
    (phaseSetAgent sam a).effects = a.effects ++ [Effect.agent_state_set] := by
  cases sam with
  | none => exact Or.inl rfl
  | some p =>
    obtain ⟨aid, rest⟩ := p
    simp only [phaseSetAgent]
    split_ifs with hp
    · exact Or.inl rfl
    · split
      · exact Or.inr rfl
      · exact Or.inl rfl

theorem phaseTarget_effects_shape (n : List Char) (t : Option Int)
    (sam : Option (Nat × List Char)) (a : ExecAcc) :
    (phaseTarget n t sam a).effects = a.effects ∨
    (phaseTarget n t sam a).effects = a.effects ++ [Effect.target_agent_state_set] := by
  cases t with
  | none => exact Or.inl rfl
  | some tid =>
    cases sam with
    | some p => exact Or.inl rfl
    | none =>
      simp only [phaseTarget]
      split_ifs with hp
      · exact Or.inl rfl
      · split
        · exact Or.inr rfl
        · exact Or.inl rfl

theorem phaseGroupShift_effects_shape (n : List Char) (a : ExecAcc) :
    (phaseGroupShift n a).effects = a.effects ∨
    ∃ name, (phaseGroupShift n a).effects = a.effects ++ [Effect.group_mood_shift name] := by
  unfold phaseGroupShift
  cases hgs : groupShiftSearch n with
  | none => exact Or.inl rfl
  | some p =>
    by_cases he : (agent_ids_by_group a.st (pyStrip p.1)).isEmpty = true
    · exact Or.inl (by simp [he])
    · exact Or.inr ⟨pyStrip p.1, by simp [he]⟩

theorem tagEffects_mem (lower : List Char) :
    ∀ x ∈ tagEffects lower, x = Effect.event_injected ∨ x = Effect.survey_triggered ∨
      x = Effect.broadcast_sent := by
  unfold tagEffects
  split_ifs <;> intro x hx <;> simp at hx <;> tauto

theorem ite_eq_left_or_right {α : Type} (p : Prop) [Decidable p] (x y : α) :
    (if p then x else y) = x ∨ (if p then x else y) = y := by
  split_ifs <;> simp

theorem default_effect_ne_nil (l : List Effect) :
    (if l.isEmpty = true then [Effect.command_recorded] else l) ≠ [] := by
  cases l <;> simp

theorem mem_default_effect {l : List Effect} {x : Effect} (h : x ∈ l) :
    x ∈ (if l.isEmpty = true then [Effect.command_recorded] else l) := by
  cases l with
  | nil => cases h
  | cons a t => simpa using h

/-- C1: for every state, every string command and every optional target id,
the engine terminates (it is a total function of its inputs) and returns a
well-formed execution record: the status is `"applied"` or `"recorded_only"`,
the normalized command is echoed back, the effects list is never empty, and
the affected agent ids are sorted ascending and duplicate-free.  Unrecognized
commands, malformed numeric literals and references to nonexistent agents are
absorbed into this data; no step of the embedded engine is partial. -/
theorem claim_C1_total_wellformed (s : SimState) (c : String) (t : Option Int) :
    ((execute_intervention s c t).2.status = "applied".data ∨
      (execute_intervention s c t).2.status = "recorded_only".data) ∧
    (execute_intervention s c t).2.normalizedCommand = normalize_command c.data ∧
    (execute_intervention s c t).2.effects ≠ [] ∧
    List.Sorted (· < ·) (execute_intervention s c t).2.affectedAgentIds ∧
    (execute_intervention s c t).2.affectedAgentIds.Nodup := by
  refine ⟨?_, rfl, ?_, ?_, ?_⟩
  · simp only [execute_intervention, execute_core]
    exact ite_eq_left_or_right _ _ _
  · simp only [execute_intervention, execute_core]
    exact default_effect_ne_nil _
  · simp only [execute_intervention, execute_core]
    exact sortedUnique_sorted _
  · simp only [execute_intervention, execute_core]
    exact sortedUnique_nodup _

theorem effects_rest_decomp (s : SimState) (n : List Char) (t : Option Int) :
    ∃ rest,
      (execute_core s n t).2.effects =
        (if ((phaseRunSpeed (toLowerChars n) ⟨s, [], [], false⟩).effects ++ rest).isEmpty = true
         then [Effect.command_recorded]
         else (phaseRunSpeed (toLowerChars n) ⟨s, [], [], false⟩).effects ++ rest) ∧
      ∀ x ∈ rest, x = Effect.agent_state_set ∨ x = Effect.target_agent_state_set ∨
        (∃ name, x = Effect.group_mood_shift name) ∨ x = Effect.event_injected ∨
        x = Effect.survey_triggered ∨ x = Effect.broadcast_sent := by
  have h2 : ∃ r2, (phaseSetAgent (setAgentMatch n) (phaseRunSpeed (toLowerChars n) ⟨s, [], [], false⟩)).effects =
      (phaseRunSpeed (toLowerChars n) ⟨s, [], [], false⟩).effects ++ r2 ∧
      ∀ x ∈ r2, x = Effect.agent_state_set := by
    rcases phaseSetAgent_effects_shape (setAgentMatch n) (phaseRunSpeed (toLowerChars n) ⟨s, [], [], false⟩) with h | h
    · exact ⟨[], by simp [h], by simp⟩
    · exact ⟨[Effect.agent_state_set], h, by simp⟩
  obtain ⟨r2, hr2, hm2⟩ := h2
  have h3 : ∃ r3, (phaseTarget n t (setAgentMatch n)
        (phaseSetAgent (setAgentMatch n) (phaseRunSpeed (toLowerChars n) ⟨s, [], [], false⟩))).effects =
      (phaseRunSpeed (toLowerChars n) ⟨s, [], [], false⟩).effects ++ (r2 ++ r3) ∧
      ∀ x ∈ r3, x = Effect.target_agent_state_set := by
    rcases phaseTarget_effects_shape n t (setAgentMatch n)
        (phaseSetAgent (setAgentMatch n) (phaseRunSpeed (toLowerChars n) ⟨s, [], [], false⟩)) with h | h
    · exact ⟨[], by simp [h, hr2], by simp⟩
    · exact ⟨[Effect.target_agent_state_set], by simp [h, hr2], by simp⟩
  obtain ⟨r3, hr3, hm3⟩ := h3
  have h4 : ∃ r4, (phaseGroupShift n (phaseTarget n t (setAgentMatch n)
        (phaseSetAgent (setAgentMatch n) (phaseRunSpeed (toLowerChars n) ⟨s, [], [], false⟩)))).effects =
      (phaseRunSpeed (toLowerChars n) ⟨s, [], [], false⟩).effects ++ (r2 ++ r3 ++ r4) ∧
      ∀ x ∈ r4, ∃ name, x = Effect.group_mood_shift name := by
    rcases phaseGroupShift_effects_shape n (phaseTarget n t (setAgentMatch n)
        (phaseSetAgent (setAgentMatch n) (phaseRunSpeed (toLowerChars n) ⟨s, [], [], false⟩))) with h | h
    · exact ⟨[], by simp [h, hr3], by simp⟩
    · obtain ⟨name, hn⟩ := h
      exact ⟨[Effect.group_mood_shift name], by simp [hn, hr3], by simp⟩
  obtain ⟨r4, hr4, hm4⟩ := h4
  refine ⟨r2 ++ r3 ++ r4 ++ tagEffects (toLowerChars n), ?_, ?_⟩
  · simp only [execute_core]
    rw [hr4]
    simp [List.append_assoc]
  · intro x hx
    simp only [List.mem_append] at hx
    rcases hx with ((hx | hx) | hx) | hx
    · exact Or.inl (hm2 x hx)
    · exact Or.inr (Or.inl (hm3 x hx))
    · exact Or.inr (Or.inr (Or.inl (hm4 x hx)))
    · rcases tagEffects_mem _ x hx with h | h | h
      · exact Or.inr (Or.inr (Or.inr (Or.inl h)))
      · exact Or.inr (Or.inr (Or.inr (Or.inr (Or.inl h))))
      · exact Or.inr (Or.inr (Or.inr (Or.inr (Or.inr h))))

theorem phaseRunSpeed_effects_eq (lower : List Char) (a : ExecAcc) :
    (phaseRunSpeed lower a).effects = a.effects ++
      (if lower = "pause".data ∨ lower = "stop".data then [Effect.simulation_paused]
       else if lower = "resume".data ∨ lower = "run".data ∨ lower = "start".data then
         [Effect.simulation_resumed]
       else match speedSearch lower with
            | some n => [Effect.speed_set (max (0.1 : ℚ) (min 10 n.val))]
            | none => []) := by
  unfold phaseRunSpeed
  split_ifs with h1 h2
  · rfl
  · rfl
  · cases hs : speedSearch lower <;> simp [hs]

theorem paused_mem_iff (s : SimState) (n : List Char) (t : Option Int) :
    Effect.simulation_paused ∈ (execute_core s n t).2.effects ↔
      (toLowerChars n = "pause".data ∨ toLowerChars n = "stop".data) := by
  obtain ⟨rest, heq, hrest⟩ := effects_rest_decomp s n t
  rw [heq]
  have hE := phaseRunSpeed_effects_eq (toLowerChars n) (⟨s, [], [], false⟩ : ExecAcc)
  simp only [List.nil_append] at hE
  by_cases h1 : toLowerChars n = "pause".data ∨ toLowerChars n = "stop".data
  · refine ⟨fun _ => h1, fun _ => ?_⟩
    apply mem_default_effect
    rw [hE, if_pos h1]
    exact List.mem_append_left _ (List.Mem.head _)
  · rw [hE, if_neg h1]
    refine ⟨fun hmem => ?_, fun hc => absurd hc h1⟩
    exfalso
    have hm2 : Effect.simulation_paused ∈
        (if toLowerChars n = "resume".data ∨ toLowerChars n = "run".data ∨
            toLowerChars n = "start".data then [Effect.simulation_resumed]
          else match speedSearch (toLowerChars n) with
            | some nl => [Effect.speed_set (max (0.1 : ℚ) (min 10 nl.val))]
            | none => []) ++ rest := by
      cases hemp : ((if toLowerChars n = "resume".data ∨ toLowerChars n = "run".data ∨
            toLowerChars n = "start".data then [Effect.simulation_resumed]
          else match speedSearch (toLowerChars n) with
            | some nl => [Effect.speed_set (max (0.1 : ℚ) (min 10 nl.val))]
            | none => []) ++ rest).isEmpty with
      | true => rw [hemp] at hmem; simp at hmem
      | false => rw [hemp] at hmem; simpa using hmem
    rcases List.mem_append.mp hm2 with hml | hmr
    · split_ifs at hml with h2
      · simp at hml
      · cases hs : speedSearch (toLowerChars n) <;> rw [hs] at hml <;> simp at hml
    · rcases hrest _ hmr with h | h | ⟨nm, h⟩ | h | h | h <;> simp at h

theorem resumed_mem_iff (s : SimState) (n : List Char) (t : Option Int) :
    Effect.simulation_resumed ∈ (execute_core s n t).2.effects ↔
      (toLowerChars n = "resume".data ∨ toLowerChars n = "run".data ∨
        toLowerChars n = "start".data) := by
  obtain ⟨rest, heq, hrest⟩ := effects_rest_decomp s n t
  rw [heq]
  have hE := phaseRunSpeed_effects_eq (toLowerChars n) (⟨s, [], [], false⟩ : ExecAcc)
  simp only [List.nil_append] at hE
  by_cases h2 : toLowerChars n = "resume".data ∨ toLowerChars n = "run".data ∨
      toLowerChars n = "start".data
  · have h1 : ¬(toLowerChars n = "pause".data ∨ toLowerChars n = "stop".data) := by
      rcases h2 with h | h | h <;> rw [h] <;> decide
    refine ⟨fun _ => h2, fun _ => ?_⟩
    apply mem_default_effect
    rw [hE, if_neg h1, if_pos h2]
    exact List.mem_append_left _ (List.Mem.head _)
  · rw [hE]
    refine ⟨fun hmem => ?_, fun hc => absurd hc h2⟩
    exfalso
    by_cases h1 : toLowerChars n = "pause".data ∨ toLowerChars n = "stop".data
    · rw [if_pos h1] at hmem
      have hm2 : Effect.simulation_resumed ∈ [Effect.simulation_paused] ++ rest := by
        cases hemp : ([Effect.simulation_paused] ++ rest).isEmpty with
        | true => rw [hemp] at hmem; simp at hmem
        | false => rw [hemp] at hmem; simpa using hmem
      rcases List.mem_append.mp hm2 with hml | hmr
      · simp at hml
      · rcases hrest _ hmr with h | h | ⟨nm, h⟩ | h | h | h <;> simp at h
    · rw [if_neg h1, if_neg h2] at hmem
      have hm2 : Effect.simulation_resumed ∈
          (match speedSearch (toLowerChars n) with
            | some nl => [Effect.speed_set (max (0.1 : ℚ) (min 10 nl.val))]
            | none => []) ++ rest := by
        cases hemp : ((match speedSearch (toLowerChars n) with
            | some nl => [Effect.speed_set (max (0.1 : ℚ) (min 10 nl.val))]
            | none => []) ++ rest).isEmpty with
        | true => rw [hemp] at hmem; simp at hmem
        | false => rw [hemp] at hmem; simpa using hmem
      rcases List.mem_append.mp hm2 with hml | hmr
      · cases hs : speedSearch (toLowerChars n) <;> rw [hs] at hml <;> simp at hml
      · rcases hrest _ hmr with h | h | ⟨nm, h⟩ | h | h | h <;> simp at h

/-- C6: `pause` (and `stop`) return status `"applied"` and leave
`isRunning = false`, with effect `simulation_paused`; a subsequent `resume`
(likewise `run`, `start`) restores `isRunning = true`, with effect
`simulation_resumed`; and the run-control pattern fires exactly when the
lowercased normalized command equals one of those five words. -/
theorem claim_C6_run_control :
    (∀ s : SimState,
      (execute_intervention s "pause" none).2.status = "applied".data ∧
      (execute_intervention s "pause" none).1.is_running = false ∧
      (execute_intervention s "stop" none).1.is_running = false ∧
      Effect.simulation_paused ∈ (execute_intervention s "stop" none).2.effects ∧
      (execute_intervention (execute_intervention s "pause" none).1 "resume" none).1.is_running
        = true ∧
      (execute_intervention s "run" none).1.is_running = true ∧
      (execute_intervention s "start" none).1.is_running = true ∧
      Effect.simulation_resumed ∈ (execute_intervention s "resume" none).2.effects) ∧
    (∀ (s : SimState) (c : String) (t : Option Int),
      (Effect.simulation_paused ∈ (execute_intervention s c t).2.effects ↔
        toLowerChars (normalize_command c.data) = "pause".data ∨
        toLowerChars (normalize_command c.data) = "stop".data) ∧
      (Effect.simulation_resumed ∈ (execute_intervention s c t).2.effects ↔
        toLowerChars (normalize_command c.data) = "resume".data ∨
        toLowerChars (normalize_command c.data) = "run".data ∨
        toLowerChars (normalize_command c.data) = "start".data)) := by
  constructor
  · intro s
    refine ⟨rfl, rfl, rfl, ?_, rfl, rfl, rfl, ?_⟩
    · exact List.Mem.head _
    · exact List.Mem.head _
  · intro s c t
    exact ⟨paused_mem_iff s (normalize_command c.data) t,
      resumed_mem_iff s (normalize_command c.data) t⟩

theorem tag_mem_final (s : SimState) (n : List Char) (t : Option Int) (x : Effect)
    (hx : x ∈ tagEffects (toLowerChars n)) : x ∈ (execute_core s n t).2.effects := by
  simp only [execute_core]
  apply mem_default_effect
  exact List.mem_append_right _ hx

/-- C9: when the lowercased normalized command starts with `inject event`,
`survey`, or `broadcast`, the corresponding tag (`event_injected`,
`survey_triggered`, `broadcast_sent`) is appended; and a command that triggers
only such a tag — `survey` exactly — still returns status `"applied"` with the
state unchanged, since an effect other than the default was recorded. -/
theorem claim_C9_recorded_only_tags :
    (∀ (s : SimState) (c : String) (t : Option Int),
      (startsWithLit "inject event".data (toLowerChars (normalize_command c.data)) = true →
        Effect.event_injected ∈ (execute_intervention s c t).2.effects) ∧
      (startsWithLit "survey".data (toLowerChars (normalize_command c.data)) = true →
        Effect.survey_triggered ∈ (execute_intervention s c t).2.effects) ∧
      (startsWithLit "broadcast".data (toLowerChars (normalize_command c.data)) = true →
        Effect.broadcast_sent ∈ (execute_intervention s c t).2.effects)) ∧
    (∀ (s : SimState) (t : Option Int),
      execute_intervention s "survey" t =
        (s, ⟨"applied".data, "survey".data, [Effect.survey_triggered], []⟩)) := by
  constructor
  · intro s c t
    refine ⟨fun h => ?_, fun h => ?_, fun h => ?_⟩ <;>
      [apply tag_mem_final s (normalize_command c.data) t;
       apply tag_mem_final s (normalize_command c.data) t;
       apply tag_mem_final s (normalize_command c.data) t] <;>
      simp [tagEffects, h]
  · intro s t
    cases t <;> rfl

theorem phaseTarget_empty_patch {n : List Char} (a : ExecAcc)
    (hp : (parse_assignments n).isEmpty = true) (t : Option Int)
    (sam : Option (Nat × List Char)) : phaseTarget n t sam a = a := by
  cases t with
  | none => cases sam <;> rfl
  | some tid =>
    cases sam with
    | some p => rfl
    | none => simp only [phaseTarget, hp, if_true]

/-- C4: a command matching no pattern of the grammar returns status
`"recorded_only"` with effects exactly `[command_recorded]`, an empty affected
list, and the state completely unchanged.  "Matches no pattern" is expressed
by the pattern matchers themselves: not a run-control word, no speed match, no
`set agent` match, no assignment fragments for a supplied target (or no
target), no group-shift match, and none of the recorded-only prefixes. -/
theorem claim_C4_unrecognized (s : SimState) (c : String) (t : Option Int)
    (h1 : ¬(toLowerChars (normalize_command c.data) = "pause".data ∨
            toLowerChars (normalize_command c.data) = "stop".data))
    (h2 : ¬(toLowerChars (normalize_command c.data) = "resume".data ∨
            toLowerChars (normalize_command c.data) = "run".data ∨
            toLowerChars (normalize_command c.data) = "start".data))
    (h3 : speedSearch (toLowerChars (normalize_command c.data)) = none)
    (h4 : setAgentMatch (normalize_command c.data) = none)
    (h5 : t = none ∨ (parse_assignments (normalize_command c.data)).isEmpty = true)
    (h6 : groupShiftSearch (normalize_command c.data) = none)
    (h7 : startsWithLit "inject event".data (toLowerChars (normalize_command c.data)) = false)
    (h8 : startsWithLit "survey".data (toLowerChars (normalize_command c.data)) = false)
    (h9 : startsWithLit "broadcast".data (toLowerChars (normalize_command c.data)) = false) :
    execute_intervention s c t =
      (s, ⟨"recorded_only".data, normalize_command c.data, [Effect.command_recorded], []⟩) := by
  unfold execute_intervention
  simp only [execute_core]
  rw [phaseRunSpeed_noop _ h1 h2 h3, h4, phaseSetAgent_none]
  have htarget : phaseTarget (normalize_command c.data) t none ⟨s, [], [], false⟩ =
      ⟨s, [], [], false⟩ := by
    rcases h5 with h5 | h5
    · subst h5
      exact phaseTarget_none_target _ _ _
    · exact phaseTarget_empty_patch _ h5 _ _
  rw [htarget, phaseGroupShift_noop _ h6]
  simp [tagEffects, h7, h8, h9, sortedUnique]

/-- Witness for C4 at a concrete state and the spec's own example command. -/
theorem claim_C4_unrecognized_witness :
    execute_intervention ⟨"cfg", 3, true, 1, none, [], [], [], [], [], [], [], none⟩
        "do something unrecognized" none =
      (⟨"cfg", 3, true, 1, none, [], [], [], [], [], [], [], none⟩,
       ⟨"recorded_only".data, "do something unrecognized".data,
        [Effect.command_recorded], []⟩) :=
  claim_C4_unrecognized _ _ _ (by decide) (by decide) (by decide) (by decide)
    (Or.inl rfl) (by decide) (by decide) (by decide) (by decide)

theorem phaseRunSpeed_speed_eq {lower : List Char} {n : NumLit} (a : ExecAcc)
    (h1 : ¬(lower = "pause".data ∨ lower = "stop".data))
    (h2 : ¬(lower = "resume".data ∨ lower = "run".data ∨ lower = "start".data))
    (h3 : speedSearch lower = some n) :
    phaseRunSpeed lower a =
      { a with st := { a.st with speed := max (0.1 : ℚ) (min 10 n.val) },
               effects := a.effects ++ [Effect.speed_set (max (0.1 : ℚ) (min 10 n.val))],
               changed := true } := by
  unfold phaseRunSpeed
  rw [if_neg h1, if_neg h2]
  simp only [h3]

/-- C5: whenever the speed pattern matches (and no run-control word did), the
engine assigns `speed = clamp(value, 0.1, 10.0)`, records the effect
`speed_set` carrying the clamped value (the source interpolates the
already-clamped `state.speed` into the tag), and thus never leaves `speed`
outside `[0.1, 10.0]`.  In particular `set speed=15` clamps to `10.0` and
`set speed=-3` clamps to `0.1` (see the witness). -/
theorem claim_C5_speed_clamped (s : SimState) (c : String) (t : Option Int) (n : NumLit)
    (h1 : ¬(toLowerChars (normalize_command c.data) = "pause".data ∨
            toLowerChars (normalize_command c.data) = "stop".data))
    (h2 : ¬(toLowerChars (normalize_command c.data) = "resume".data ∨
            toLowerChars (normalize_command c.data) = "run".data ∨
            toLowerChars (normalize_command c.data) = "start".data))
    (h3 : speedSearch (toLowerChars (normalize_command c.data)) = some n) :
    (execute_intervention s c t).1.speed = max (0.1 : ℚ) (min 10 n.val) ∧
    Effect.speed_set (max (0.1 : ℚ) (min 10 n.val)) ∈ (execute_intervention s c t).2.effects ∧
    (0.1 : ℚ) ≤ (execute_intervention s c t).1.speed ∧
    (execute_intervention s c t).1.speed ≤ 10 := by
  have hspeed : (execute_intervention s c t).1.speed = max (0.1 : ℚ) (min 10 n.val) := by
    unfold execute_intervention
    simp only [execute_core]
    rw [(phaseGroupShift_same _ _).1, (phaseTarget_same _ _ _ _).1, (phaseSetAgent_same _ _).1,
      phaseRunSpeed_speed_eq _ h1 h2 h3]
  refine ⟨hspeed, ?_, ?_, ?_⟩
  · unfold execute_intervention
    obtain ⟨rest, heq, _⟩ := effects_rest_decomp s (normalize_command c.data) t
    rw [heq]
    apply mem_default_effect
    apply List.mem_append_left
    rw [phaseRunSpeed_effects_eq, if_neg h1, if_neg h2]
    simp only [h3]
    simp
  · rw [hspeed]
    exact le_max_left _ _
  · rw [hspeed]
    exact max_le (by norm_num) (min_le_left _ _)

/-- Witness for C5: `set speed=15` clamps to `10.0` and `set speed=-3` clamps
to `0.1`, at a concrete state. -/
theorem claim_C5_speed_clamped_witness :
    (execute_intervention ⟨"cfg", 0, true, 1, none, [], [], [], [], [], [], [], none⟩
        "set speed=15" none).1.speed = 10 ∧
    (execute_intervention ⟨"cfg", 0, true, 1, none, [], [], [], [], [], [], [], none⟩
        "set speed=-3" none).1.speed = (0.1 : ℚ) := by
  constructor
  · have h := claim_C5_speed_clamped
      ⟨"cfg", 0, true, 1, none, [], [], [], [], [], [], [], none⟩ "set speed=15" none
      ⟨false, ['1', '5'], []⟩ (by decide) (by decide) (by decide)
    rw [h.1]
    rw [show NumLit.val ⟨false, ['1', '5'], []⟩ =
        ((decValue ['1', '5'] : ℚ) + (decValue ([] : List Char) : ℚ) / 10 ^ (0 : ℕ)) from rfl]
    rw [show decValue ['1', '5'] = 15 from by decide, show decValue ([] : List Char) = 0 from rfl]
    rw [max_def, min_def]
    norm_num
  · have h := claim_C5_speed_clamped
      ⟨"cfg", 0, true, 1, none, [], [], [], [], [], [], [], none⟩ "set speed=-3" none
      ⟨true, ['3'], []⟩ (by decide) (by decide) (by decide)
    rw [h.1]
    rw [show NumLit.val ⟨true, ['3'], []⟩ =
        -((decValue ['3'] : ℚ) + (decValue ([] : List Char) : ℚ) / 10 ^ (0 : ℕ)) from rfl]
    rw [show decValue ['3'] = 3 from by decide, show decValue ([] : List Char) = 0 from rfl]
    rw [max_def, min_def]
    norm_num

theorem clampMS_mem (v : ℚ) : -1 ≤ clampMS v ∧ clampMS v ≤ 1 :=
  ⟨le_max_left _ _, max_le (by norm_num) (min_le_left _ _)⟩

theorem clampRes_mem (v : ℚ) : 0 ≤ clampRes v ∧ clampRes v ≤ 10000 :=
  ⟨le_max_left _ _, max_le (by norm_num) (min_le_left _ _)⟩

theorem assignFold_bounds :
    ∀ (l : List (AKey × NumLit)) (a : Assignments),
    ((∀ v : ℚ, a.mood = some v → -1 ≤ v ∧ v ≤ 1) ∧
     (∀ v : ℚ, a.stance = some v → -1 ≤ v ∧ v ≤ 1) ∧
     (∀ v : ℚ, a.resources = some v → 0 ≤ v ∧ v ≤ 10000)) →
    ((∀ v : ℚ, (l.foldl (fun a kv =>
        match kv.1 with
        | AKey.mood => { a with mood := some (clampMS kv.2.val) }
        | AKey.stance => { a with stance := some (clampMS kv.2.val) }
        | AKey.resources => { a with resources := some (clampRes kv.2.val) }) a).mood = some v →
        -1 ≤ v ∧ v ≤ 1) ∧
     (∀ v : ℚ, (l.foldl (fun a kv =>
        match kv.1 with
        | AKey.mood => { a with mood := some (clampMS kv.2.val) }
        | AKey.stance => { a with stance := some (clampMS kv.2.val) }
        | AKey.resources => { a with resources := some (clampRes kv.2.val) }) a).stance = some v →
        -1 ≤ v ∧ v ≤ 1) ∧
     (∀ v : ℚ, (l.foldl (fun a kv =>
        match kv.1 with
        | AKey.mood => { a with mood := some (clampMS kv.2.val) }
        | AKey.stance => { a with stance := some (clampMS kv.2.val) }
        | AKey.resources => { a with resources := some (clampRes kv.2.val) }) a).resources = some v →
        0 ≤ v ∧ v ≤ 10000)) := by
  intro l
  induction l with
  | nil => intro a h; exact h
  | cons kv r ih =>
    intro a h
    obtain ⟨hm, hs, hr⟩ := h
    obtain ⟨k, nl⟩ := kv
    simp only [List.foldl_cons]
    apply ih
    cases k
    · refine ⟨fun v hv => ?_, hs, hr⟩
      rw [← Option.some.inj hv]
      exact clampMS_mem _
    · refine ⟨hm, fun v hv => ?_, hr⟩
      rw [← Option.some.inj hv]
      exact clampMS_mem _
    · refine ⟨hm, hs, fun v hv => ?_⟩
      rw [← Option.some.inj hv]
      exact clampRes_mem _

theorem parse_assignments_bounds (raw : List Char) :
    (∀ v : ℚ, (parse_assignments raw).mood = some v → -1 ≤ v ∧ v ≤ 1) ∧
    (∀ v : ℚ, (parse_assignments raw).stance = some v → -1 ≤ v ∧ v ≤ 1) ∧
    (∀ v : ℚ, (parse_assignments raw).resources = some v → 0 ≤ v ∧ v ≤ 10000) := by
  unfold parse_assignments
  exact assignFold_bounds _ _
    ⟨fun v hv => by simp at hv, fun v hv => by simp at hv, fun v hv => by simp at hv⟩

theorem apply_agent_patch_true {s : SimState} {aid : Int} {st : AgentState}
    (h : get_agent_state_ref s aid = some st) (hf : st.isFalsy = false)
    (patch : Assignments) :
    ∃ k, resolveKey s.agents aid = some k ∧
      (alistGet s.agents k).bind AgentRec.state = some st ∧
      apply_agent_patch s aid patch = (setStateAt s k (applyPatchFields patch st), true) := by
  obtain ⟨k, hres, hget⟩ := ref_some_parts h
  refine ⟨k, hres, hget, ?_⟩
  unfold apply_agent_patch
  simp only [hres, hget, hf, Bool.false_eq_true, if_false]

/-- C2: on a state containing agent 7 (with its state sub-dict present and
non-empty, as the data model guarantees), `set agent 7 mood=2.0
resources=99999` clamps mood to `1.0` and resources to `10000`, sets
`lastAction` to `"intervened"`, and returns `affectedAgentIds == [7]` with
effect `agent_state_set` and status `"applied"`; and in general every value
parsed by `_parse_assignments` is clamped per the §3 invariants
(`mood`,`stance` into `[-1,1]`, `resources` into `[0,10000]`). -/
theorem claim_C2_set_agent (s : SimState) (st : AgentState)
    (h : get_agent_state_ref s 7 = some st) (hf : st.isFalsy = false) :
    get_agent_state_ref
        (execute_intervention s "set agent 7 mood=2.0 resources=99999" none).1 7 =
      some { mood := some 1, stance := st.stance, resources := some 10000,
             lastAction := some "intervened".data } ∧
    (execute_intervention s "set agent 7 mood=2.0 resources=99999" none).2.affectedAgentIds
      = [7] ∧
    Effect.agent_state_set ∈
      (execute_intervention s "set agent 7 mood=2.0 resources=99999" none).2.effects ∧
    (execute_intervention s "set agent 7 mood=2.0 resources=99999" none).2.status
      = "applied".data ∧
    (∀ (raw : List Char) (v : ℚ), (parse_assignments raw).mood = some v → -1 ≤ v ∧ v ≤ 1) ∧
    (∀ (raw : List Char) (v : ℚ), (parse_assignments raw).stance = some v → -1 ≤ v ∧ v ≤ 1) ∧
    (∀ (raw : List Char) (v : ℚ), (parse_assignments raw).resources = some v →
      0 ≤ v ∧ v ≤ 10000) := by
  obtain ⟨k, hres, hget, happ⟩ := apply_agent_patch_true h hf
    (parse_assignments "mood=2.0 resources=99999".data)
  have hexec : execute_intervention s "set agent 7 mood=2.0 resources=99999" none =
      (setStateAt s k (applyPatchFields (parse_assignments "mood=2.0 resources=99999".data) st),
       ⟨"applied".data, "set agent 7 mood=2.0 resources=99999".data,
        [Effect.agent_state_set], [(7 : Int)]⟩) := by
    unfold execute_intervention
    simp only [execute_core]
    rw [phaseRunSpeed_noop _ (by decide) (by decide) (by decide)]
    rw [show setAgentMatch (normalize_command "set agent 7 mood=2.0 resources=99999".data) =
        some (7, "mood=2.0 resources=99999".data) from by decide]
    simp only [phaseSetAgent, Nat.cast_ofNat]
    rw [if_neg (show ¬((parse_assignments "mood=2.0 resources=99999".data).isEmpty = true) from by
      rw [show (parse_assignments "mood=2.0 resources=99999".data).isEmpty = false from rfl]
      simp)]
    simp only [happ]
    rw [phaseTarget_some_sam, phaseGroupShift_noop _ (by decide)]
    simp [show tagEffects (toLowerChars (normalize_command
        "set agent 7 mood=2.0 resources=99999".data)) = [] from by decide,
      sortedUnique, insertSorted]
    decide
  have hv1 : clampMS (NumLit.val ⟨false, ['2'], ['0']⟩) = 1 := by
    rw [show NumLit.val ⟨false, ['2'], ['0']⟩ =
        ((decValue ['2'] : ℚ) + (decValue ['0'] : ℚ) / (10 : ℚ) ^ (['0'] : List Char).length)
        from rfl]
    rw [show decValue ['2'] = 2 from by decide, show decValue ['0'] = 0 from by decide]
    unfold clampMS
    rw [max_def, min_def]
    norm_num
  have hv2 : clampRes (NumLit.val ⟨false, ['9', '9', '9', '9', '9'], []⟩) = 10000 := by
    rw [show NumLit.val ⟨false, ['9', '9', '9', '9', '9'], []⟩ =
        ((decValue ['9', '9', '9', '9', '9'] : ℚ) +
          (decValue ([] : List Char) : ℚ) / (10 : ℚ) ^ (([] : List Char)).length) from rfl]
    rw [show decValue ['9', '9', '9', '9', '9'] = 99999 from by decide,
      show decValue ([] : List Char) = 0 from rfl]
    unfold clampRes
    rw [max_def, min_def]
    norm_num
  have hapf : applyPatchFields (parse_assignments "mood=2.0 resources=99999".data) st =
      { mood := some 1, stance := st.stance, resources := some 10000,
        lastAction := some "intervened".data } := by
    rw [show parse_assignments "mood=2.0 resources=99999".data =
        (⟨some (clampMS (NumLit.val ⟨false, ['2'], ['0']⟩)), none,
          some (clampRes (NumLit.val ⟨false, ['9', '9', '9', '9', '9'], []⟩))⟩ : Assignments)
        from rfl]
    rw [show applyPatchFields
        (⟨some (clampMS (NumLit.val ⟨false, ['2'], ['0']⟩)), none,
          some (clampRes (NumLit.val ⟨false, ['9', '9', '9', '9', '9'], []⟩))⟩ : Assignments) st =
        { mood := some (clampMS (NumLit.val ⟨false, ['2'], ['0']⟩)), stance := st.stance,
          resources := some (clampRes (NumLit.val ⟨false, ['9', '9', '9', '9', '9'], []⟩)),
          lastAction := some "intervened".data } from rfl]
    rw [hv1, hv2]
  refine ⟨?_, ?_, ?_, ?_, fun raw => (parse_assignments_bounds raw).1,
    fun raw => (parse_assignments_bounds raw).2.1, fun raw => (parse_assignments_bounds raw).2.2⟩
  · rw [hexec]
    show get_agent_state_ref (setStateAt s k _) 7 = _
    rw [ref_setStateAt_self hres, hapf]
  · rw [hexec]
  · rw [hexec]
    exact List.Mem.head _
  · rw [hexec]

/-- Witness for C2 at a concrete one-agent state. -/
theorem claim_C2_set_agent_witness :
    get_agent_state_ref
      (execute_intervention
        ⟨"cfg", 0, true, 1, none,
          [(AgentKey.int 7, ⟨some ⟨some "Group A".data, "p"⟩,
            some ⟨some 0, some 0, some 100, some "idle".data⟩⟩)],
          [], [], [], [], [], [], none⟩
        "set agent 7 mood=2.0 resources=99999" none).1 7 =
      some ⟨some 1, some 0, some 10000, some "intervened".data⟩ ∧
    (execute_intervention
        ⟨"cfg", 0, true, 1, none,
          [(AgentKey.int 7, ⟨some ⟨some "Group A".data, "p"⟩,
            some ⟨some 0, some 0, some 100, some "idle".data⟩⟩)],
          [], [], [], [], [], [], none⟩
        "set agent 7 mood=2.0 resources=99999" none).2.affectedAgentIds = [7] := by
  have h := claim_C2_set_agent
    ⟨"cfg", 0, true, 1, none,
      [(AgentKey.int 7, ⟨some ⟨some "Group A".data, "p"⟩,
        some ⟨some 0, some 0, some 100, some "idle".data⟩⟩)],
      [], [], [], [], [], [], none⟩
    ⟨some 0, some 0, some 100, some "idle".data⟩ rfl rfl
  exact ⟨h.1, h.2.1⟩

theorem exec_group_shift_state (s : SimState) (c : String) (rawName : List Char) (n : NumLit)
    (hgs : groupShiftSearch (normalize_command c.data) = some (rawName, n))
    (hsam : setAgentMatch (normalize_command c.data) = none) :
    (execute_intervention s c none).1 =
      (groupShiftLoop n.val (agent_ids_by_group s (pyStrip rawName))
        (phaseRunSpeed (toLowerChars (normalize_command c.data))
          (⟨s, [], [], false⟩ : ExecAcc)).st []).1 := by
  unfold execute_intervention
  simp only [execute_core]
  rw [hsam, phaseSetAgent_none, phaseTarget_none_target]
  simp only [phaseGroupShift, hgs]
  rw [ids_by_group_agents_congr (phaseRunSpeed_st_agents
    (toLowerChars (normalize_command c.data)) ⟨s, [], [], false⟩)]

theorem exec_group_shift_affected (s : SimState) (c : String) (rawName : List Char)
    (n : NumLit)
    (hgs : groupShiftSearch (normalize_command c.data) = some (rawName, n))
    (hsam : setAgentMatch (normalize_command c.data) = none) :
    (execute_intervention s c none).2.affectedAgentIds =
      sortedUnique (groupShiftLoop n.val (agent_ids_by_group s (pyStrip rawName))
        (phaseRunSpeed (toLowerChars (normalize_command c.data))
          (⟨s, [], [], false⟩ : ExecAcc)).st []).2 := by
  unfold execute_intervention
  simp only [execute_core]
  rw [hsam, phaseSetAgent_none, phaseTarget_none_target]
  simp only [phaseGroupShift, hgs]
  rw [ids_by_group_agents_congr (phaseRunSpeed_st_agents
    (toLowerChars (normalize_command c.data)) ⟨s, [], [], false⟩)]
  rw [phaseRunSpeed_affected]
  simp

theorem exec_group_shift_effects (s : SimState) (c : String) (rawName : List Char)
    (n : NumLit)
    (hgs : groupShiftSearch (normalize_command c.data) = some (rawName, n))
    (hsam : setAgentMatch (normalize_command c.data) = none) :
    (execute_intervention s c none).2.effects =
      (if (((if (agent_ids_by_group s (pyStrip rawName)).isEmpty = true then
              (phaseRunSpeed (toLowerChars (normalize_command c.data))
                (⟨s, [], [], false⟩ : ExecAcc)).effects
            else (phaseRunSpeed (toLowerChars (normalize_command c.data))
                (⟨s, [], [], false⟩ : ExecAcc)).effects ++
              [Effect.group_mood_shift (pyStrip rawName)]) ++
            tagEffects (toLowerChars (normalize_command c.data))).isEmpty = true)
       then [Effect.command_recorded]
       else (if (agent_ids_by_group s (pyStrip rawName)).isEmpty = true then
              (phaseRunSpeed (toLowerChars (normalize_command c.data))
                (⟨s, [], [], false⟩ : ExecAcc)).effects
            else (phaseRunSpeed (toLowerChars (normalize_command c.data))
                (⟨s, [], [], false⟩ : ExecAcc)).effects ++
              [Effect.group_mood_shift (pyStrip rawName)]) ++
            tagEffects (toLowerChars (normalize_command c.data))) := by
  unfold execute_intervention
  simp only [execute_core]
  rw [hsam, phaseSetAgent_none, phaseTarget_none_target]
  simp only [phaseGroupShift, hgs]
  rw [ids_by_group_agents_congr (phaseRunSpeed_st_agents
    (toLowerChars (normalize_command c.data)) ⟨s, [], [], false⟩)]

/-- C3: `shift group <name> mood=<delta>` (with no `set agent` match and no
caller target) resolves all agents whose trimmed group name matches the
trimmed captured name case-insensitively and exactly, adds the delta to each
matched agent's current mood clamped to `[-1, 1]`, sets each one's
`lastAction` to `"intervened_group_shift"`, returns exactly the matched ids in
`affectedAgentIds` sorted ascending and de-duplicated, and records the effect
`group_mood_shift:<name>` if and only if at least one agent matched.
(The hypotheses require the resolved agents to carry a non-empty state
sub-dict — the data-model invariant — and the id list to be duplicate-free,
which holds whenever the dict does not carry the same agent under both an
integer and a string key.) -/
theorem claim_C3_group_mood_shift (s : SimState) (c : String) (rawName : List Char)
    (n : NumLit)
    (hgs : groupShiftSearch (normalize_command c.data) = some (rawName, n))
    (hsam : setAgentMatch (normalize_command c.data) = none)
    (hwf : ∀ a ∈ agent_ids_by_group s (pyStrip rawName),
        stateRefFalsy (get_agent_state_ref s a) = false)
    (hnd : (agent_ids_by_group s (pyStrip rawName)).Nodup) :
    (∀ a ∈ agent_ids_by_group s (pyStrip rawName),
       ∃ st, get_agent_state_ref s a = some st ∧
         get_agent_state_ref (execute_intervention s c none).1 a =
           some { st with
             mood := some (clampMS (st.mood.getD 0 + n.val)),
             lastAction := some "intervened_group_shift".data }) ∧
    (execute_intervention s c none).2.affectedAgentIds =
      sortedUnique (agent_ids_by_group s (pyStrip rawName)) ∧
    List.Sorted (· < ·) (execute_intervention s c none).2.affectedAgentIds ∧
    (execute_intervention s c none).2.affectedAgentIds.Nodup ∧
    (∀ a : Int, a ∈ (execute_intervention s c none).2.affectedAgentIds ↔
       a ∈ agent_ids_by_group s (pyStrip rawName)) ∧
    (Effect.group_mood_shift (pyStrip rawName) ∈ (execute_intervention s c none).2.effects ↔
       agent_ids_by_group s (pyStrip rawName) ≠ []) := by
  have hagents : (phaseRunSpeed (toLowerChars (normalize_command c.data))
      (⟨s, [], [], false⟩ : ExecAcc)).st.agents = s.agents :=
    phaseRunSpeed_st_agents _ _
  have hwf1 : ∀ a ∈ agent_ids_by_group s (pyStrip rawName),
      stateRefFalsy (get_agent_state_ref
        (phaseRunSpeed (toLowerChars (normalize_command c.data))
          (⟨s, [], [], false⟩ : ExecAcc)).st a) = false := by
    intro a ha
    rw [ref_agents_congr hagents]
    exact hwf a ha
  obtain ⟨hl2, hlmood, _⟩ := groupShiftLoop_spec n.val
    (agent_ids_by_group s (pyStrip rawName))
    (phaseRunSpeed (toLowerChars (normalize_command c.data)) (⟨s, [], [], false⟩ : ExecAcc)).st
    [] hnd hwf1
  refine ⟨?_, ?_, ?_, ?_, ?_, ?_⟩
  · intro a ha
    have hwa := hwf a ha
    rw [stateRefFalsy_false_iff] at hwa
    obtain ⟨st, hst, _⟩ := hwa
    refine ⟨st, hst, ?_⟩
    rw [exec_group_shift_state s c rawName n hgs hsam, hlmood a ha,
      ref_agents_congr hagents, hst]
    rfl
  · rw [exec_group_shift_affected s c rawName n hgs hsam, hl2]
    simp
  · rw [exec_group_shift_affected s c rawName n hgs hsam]
    exact sortedUnique_sorted _
  · rw [exec_group_shift_affected s c rawName n hgs hsam]
    exact sortedUnique_nodup _
  · intro a
    rw [exec_group_shift_affected s c rawName n hgs hsam, hl2, mem_sortedUnique]
    simp
  · rw [exec_group_shift_effects s c rawName n hgs hsam]
    by_cases hids : (agent_ids_by_group s (pyStrip rawName)).isEmpty = true
    · rw [if_pos hids]
      have hidsnil : agent_ids_by_group s (pyStrip rawName) = [] := by
        cases hh : agent_ids_by_group s (pyStrip rawName) with
        | nil => rfl
        | cons x xs => rw [hh] at hids; simp at hids
      constructor
      · intro hmem
        exfalso
        have hmem2 : Effect.group_mood_shift (pyStrip rawName) ∈
            (phaseRunSpeed (toLowerChars (normalize_command c.data))
              (⟨s, [], [], false⟩ : ExecAcc)).effects ++
            tagEffects (toLowerChars (normalize_command c.data)) := by
          cases hemp : ((phaseRunSpeed (toLowerChars (normalize_command c.data))
              (⟨s, [], [], false⟩ : ExecAcc)).effects ++
              tagEffects (toLowerChars (normalize_command c.data))).isEmpty with
          | true => rw [hemp] at hmem; simp at hmem
          | false => rw [hemp] at hmem; simpa using hmem
        rcases List.mem_append.mp hmem2 with hml | hmr
        · have hE := phaseRunSpeed_effects_eq (toLowerChars (normalize_command c.data))
            (⟨s, [], [], false⟩ : ExecAcc)
          simp only [List.nil_append] at hE
          rw [hE] at hml
          split_ifs at hml with h1 h2
          · simp at hml
          · simp at hml
          · cases hs : speedSearch (toLowerChars (normalize_command c.data)) <;>
              rw [hs] at hml <;> simp at hml
        · rcases tagEffects_mem _ _ hmr with h | h | h <;> simp at h
      · intro hne
        exact absurd hidsnil hne
    · rw [if_neg hids]
      have hidsne : agent_ids_by_group s (pyStrip rawName) ≠ [] := by
        intro hh
        rw [hh] at hids
        simp at hids
      refine ⟨fun _ => hidsne, fun _ => ?_⟩
      apply mem_default_effect
      apply List.mem_append_left
      exact List.mem_append_right _ (List.Mem.head _)

/-- Witness for C3: three agents in "Group A" at moods -0.9, 0.0, 0.9; a shift
of 0.3 yields moods -0.6, 0.3, 1.0 (the last clamped), with affected ids
[1, 2, 3] sorted ascending. -/
theorem claim_C3_witness :
    (execute_intervention wState3 "shift group Group A mood=0.3" none).2.affectedAgentIds
      = [1, 2, 3] ∧
    get_agent_state_ref
        (execute_intervention wState3 "shift group Group A mood=0.3" none).1 1 =
      some ⟨some (-(3/5 : ℚ)), some 0, some 100, some "intervened_group_shift".data⟩ ∧
    get_agent_state_ref
        (execute_intervention wState3 "shift group Group A mood=0.3" none).1 2 =
      some ⟨some (3/10 : ℚ), some 0, some 100, some "intervened_group_shift".data⟩ ∧
    get_agent_state_ref
        (execute_intervention wState3 "shift group Group A mood=0.3" none).1 3 =
      some ⟨some (1 : ℚ), some 0, some 100, some "intervened_group_shift".data⟩ := by
  have hval : NumLit.val ⟨false, ['0'], ['3']⟩ = 3 / 10 := by
    rw [show NumLit.val ⟨false, ['0'], ['3']⟩ =
      ((decValue ['0'] : ℚ) + (decValue ['3'] : ℚ) / (10 : ℚ) ^ (['3'] : List Char).length)
      from rfl]
    rw [show decValue ['0'] = 0 from by decide, show decValue ['3'] = 3 from by decide]
    norm_num
  have h := claim_C3_group_mood_shift wState3 "shift group Group A mood=0.3" "Group A".data
    ⟨false, ['0'], ['3']⟩ (by decide) (by decide) (by decide) (by decide)
  refine ⟨by rw [h.2.1]; decide, ?_, ?_, ?_⟩
  · obtain ⟨st, hst, hres⟩ := h.1 1 (by decide)
    have hst2 : st = ⟨some (-(9/10 : ℚ)), some 0, some 100, some "idle".data⟩ := by
      have hrefl : get_agent_state_ref wState3 1 =
          some ⟨some (-(9/10 : ℚ)), some 0, some 100, some "idle".data⟩ := rfl
      rw [hrefl] at hst
      exact (Option.some.inj hst).symm
    subst hst2
    rw [hres]
    rw [show ((⟨some (-(9/10 : ℚ)), some 0, some 100, some "idle".data⟩ :
        AgentState).mood.getD 0) = (-(9/10 : ℚ)) from rfl]
    rw [show clampMS (-(9/10 : ℚ) + NumLit.val ⟨false, ['0'], ['3']⟩) = -(3/5 : ℚ) from by
      rw [hval]; unfold clampMS; rw [max_def, min_def]; norm_num]
  · obtain ⟨st, hst, hres⟩ := h.1 2 (by decide)
    have hst2 : st = ⟨some (0 : ℚ), some 0, some 100, some "idle".data⟩ := by
      have hrefl : get_agent_state_ref wState3 2 =
          some ⟨some (0 : ℚ), some 0, some 100, some "idle".data⟩ := rfl
      rw [hrefl] at hst
      exact (Option.some.inj hst).symm
    subst hst2
    rw [hres]
    rw [show ((⟨some (0 : ℚ), some 0, some 100, some "idle".data⟩ :
        AgentState).mood.getD 0) = (0 : ℚ) from rfl]
    rw [show clampMS ((0 : ℚ) + NumLit.val ⟨false, ['0'], ['3']⟩) = (3/10 : ℚ) from by
      rw [hval]; unfold clampMS; rw [max_def, min_def]; norm_num]
  · obtain ⟨st, hst, hres⟩ := h.1 3 (by decide)
    have hst2 : st = ⟨some (9/10 : ℚ), some 0, some 100, some "idle".data⟩ := by
      have hrefl : get_agent_state_ref wState3 3 =
          some ⟨some (9/10 : ℚ), some 0, some 100, some "idle".data⟩ := rfl
      rw [hrefl] at hst
      exact (Option.some.inj hst).symm
    subst hst2
    rw [hres]
    rw [show ((⟨some (9/10 : ℚ), some 0, some 100, some "idle".data⟩ :
        AgentState).mood.getD 0) = (9/10 : ℚ) from rfl]
    rw [show clampMS ((9/10 : ℚ) + NumLit.val ⟨false, ['0'], ['3']⟩) = (1 : ℚ) from by
      rw [hval]; unfold clampMS; rw [max_def, min_def]; norm_num]

/-- C10: the engine only ever writes `isRunning`, `speed`, and (within
existing agents' state sub-records) the keys `mood`, `stance`, `resources`,
`lastAction`: for every state, command and target, the result preserves
`config`, `tick`, `selectedAgentId`, `groups`, `logs`, `events`, `feed`,
`interventions`, `snapshots` and `currentSnapshotId`, and the agents dict
keeps exactly the same keys in the same order with the same profile snapshots
and the same presence of the state sub-dict (no agent added or removed). -/
theorem claim_C10_engine_frame (s : SimState) (c : String) (t : Option Int) :
    EngineFrame s (execute_intervention s c t).1 := by
  unfold execute_intervention
  simp only [execute_core]
  exact engineFrame_trans (phaseRunSpeed_frame _ _)
    (engineFrame_trans (phaseSetAgent_frame _ _)
      (engineFrame_trans (phaseTarget_frame _ _ _ _) (phaseGroupShift_frame _ _)))

theorem applyPatchFields_not_falsy (patch : Assignments) (st : AgentState) :
    (applyPatchFields patch st).isFalsy = false := by
  unfold applyPatchFields AgentState.isFalsy
  simp

theorem applyPatchFields_idem (patch : Assignments) (st : AgentState) :
    applyPatchFields patch (applyPatchFields patch st) = applyPatchFields patch st := by
  obtain ⟨pm, ps, pr⟩ := patch
  cases pm <;> cases ps <;> cases pr <;> rfl

theorem alistUpdate_alistUpdate {β : Type} (l : List (AgentKey × β)) (k : AgentKey)
    (f g : β → β) :
    alistUpdate (alistUpdate l k f) k g = alistUpdate l k (fun v => g (f v)) := by
  induction l with
  | nil => rfl
  | cons p t ih =>
    obtain ⟨k0, v⟩ := p
    by_cases h : k0 = k
    · simp [alistUpdate, h]
    · simp [alistUpdate, h, ih]

theorem apply_agent_patch_falsy {s : SimState} {aid : Int}
    (h : stateRefFalsy (get_agent_state_ref s aid) = true) (patch : Assignments) :
    apply_agent_patch s aid patch = (s, false) := by
  unfold apply_agent_patch
  split
  · rfl
  · next k heq =>
    split
    · rfl
    · next st hget =>
      split
      · rfl
      · next hfal =>
        exfalso
        have href : get_agent_state_ref s aid = some st := by
          unfold get_agent_state_ref
          rw [heq]
          simp only [Option.bind]
          exact hget
        rw [href] at h
        exact hfal (by simpa [stateRefFalsy] using h)

theorem apply_agent_patch_agents_congr (s0 s1 : SimState) (aid : Int)
    (patch : Assignments) (h : s1.agents = s0.agents) :
    (apply_agent_patch s1 aid patch).1.agents = (apply_agent_patch s0 aid patch).1.agents := by
  by_cases hfal : stateRefFalsy (get_agent_state_ref s0 aid) = true
  · have hfal1 : stateRefFalsy (get_agent_state_ref s1 aid) = true := by
      rw [ref_agents_congr h]
      exact hfal
    rw [apply_agent_patch_falsy hfal, apply_agent_patch_falsy hfal1]
    exact h
  · have hfal2 : stateRefFalsy (get_agent_state_ref s0 aid) = false := by
      cases hb : stateRefFalsy (get_agent_state_ref s0 aid)
      · rfl
      · exact absurd hb hfal
    rw [stateRefFalsy_false_iff] at hfal2
    obtain ⟨st, hst, hstf⟩ := hfal2
    obtain ⟨k0, hres0, _, happ0⟩ := apply_agent_patch_true hst hstf patch
    have hst1 : get_agent_state_ref s1 aid = some st := by
      rw [ref_agents_congr h]
      exact hst
    obtain ⟨k1, hres1, _, happ1⟩ := apply_agent_patch_true hst1 hstf patch
    have hk : k1 = k0 := by
      rw [show resolveKey s1.agents aid = resolveKey s0.agents aid from by rw [h]] at hres1
      rw [hres0] at hres1
      exact (Option.some.inj hres1).symm
    rw [hk] at happ1
    rw [happ0, happ1]
    show alistUpdate s1.agents k0 _ = alistUpdate s0.agents k0 _
    rw [h]

theorem apply_twice_agents (s0 s1 : SimState) (aid : Int) (patch : Assignments)
    (h01 : s1.agents = (apply_agent_patch s0 aid patch).1.agents) :
    (apply_agent_patch s1 aid patch).1.agents = s1.agents := by
  by_cases hfal : stateRefFalsy (get_agent_state_ref s0 aid) = true
  · rw [apply_agent_patch_falsy hfal] at h01
    replace h01 : s1.agents = s0.agents := h01
    have hfal1 : stateRefFalsy (get_agent_state_ref s1 aid) = true := by
      rw [ref_agents_congr h01]
      exact hfal
    rw [apply_agent_patch_falsy hfal1]
  · have hfal2 : stateRefFalsy (get_agent_state_ref s0 aid) = false := by
      cases hb : stateRefFalsy (get_agent_state_ref s0 aid)
      · rfl
      · exact absurd hb hfal
    rw [stateRefFalsy_false_iff] at hfal2
    obtain ⟨st, hst, hstf⟩ := hfal2
    obtain ⟨k, hres, hget, happ⟩ := apply_agent_patch_true hst hstf patch
    rw [happ] at h01
    replace h01 : s1.agents =
        alistUpdate s0.agents k
          (fun r => { r with state := some (applyPatchFields patch st) }) := h01
    have href1 : get_agent_state_ref s1 aid = some (applyPatchFields patch st) := by
      rw [ref_agents_congr
        (show s1.agents = (setStateAt s0 k (applyPatchFields patch st)).agents from h01)]
      exact ref_setStateAt_self hres _
    obtain ⟨k2, hres2, _, happ2⟩ := apply_agent_patch_true href1
      (applyPatchFields_not_falsy patch st) patch
    have hk : k2 = k := by
      have e1 : resolveKey s1.agents aid = some k := by
        rw [h01, resolveKey_alistUpdate]
        exact hres
      rw [e1] at hres2
      exact (Option.some.inj hres2).symm
    rw [hk] at happ2
    rw [happ2]
    show alistUpdate s1.agents k
        (fun r => { r with state := some (applyPatchFields patch (applyPatchFields patch st)) })
      = s1.agents
    rw [applyPatchFields_idem, h01, alistUpdate_alistUpdate]

theorem phaseSetAgent_st (p : Nat × List Char) (a : ExecAcc) :
    (phaseSetAgent (some p) a).st =
      if (parse_assignments p.2).isEmpty = true then a.st
      else (apply_agent_patch a.st (p.1 : Int) (parse_assignments p.2)).1 := by
  obtain ⟨aid, rest⟩ := p
  simp only [phaseSetAgent]
  split_ifs with hp
  · rfl
  · split
    · next s' heq => rw [heq]
    · next s' heq => rw [heq]

theorem exec_set_agent_agents (s : SimState) (c : String) (t : Option Int)
    (p : Nat × List Char)
    (hsam : setAgentMatch (normalize_command c.data) = some p)
    (hgs : groupShiftSearch (normalize_command c.data) = none) :
    (execute_intervention s c t).1.agents =
      (phaseSetAgent (some p) (phaseRunSpeed (toLowerChars (normalize_command c.data))
        (⟨s, [], [], false⟩ : ExecAcc))).st.agents := by
  unfold execute_intervention
  simp only [execute_core]
  rw [hsam, phaseTarget_some_sam, phaseGroupShift_noop _ hgs]

/-- C8: re-running the same `set agent N mood=0.5` command (any direct agent
assignment, with no group-shift pattern in the command) is idempotent:
assignments are clamped overwrites, not deltas, so the agents dict — and in
particular every agent's mood — is the same after running the command twice
as after running it once. -/
theorem claim_C8_set_agent_idempotent (s : SimState) (c : String) (t : Option Int)
    (p : Nat × List Char)
    (hsam : setAgentMatch (normalize_command c.data) = some p)
    (hgs : groupShiftSearch (normalize_command c.data) = none) :
    (execute_intervention (execute_intervention s c t).1 c t).1.agents =
      (execute_intervention s c t).1.agents ∧
    (∀ aid : Int,
      agent_mood (execute_intervention (execute_intervention s c t).1 c t).1 aid =
      agent_mood (execute_intervention s c t).1 aid) := by
  have hA1 : ∀ s0 : SimState,
      (phaseRunSpeed (toLowerChars (normalize_command c.data))
        (⟨s0, [], [], false⟩ : ExecAcc)).st.agents = s0.agents :=
    fun s0 => phaseRunSpeed_st_agents _ _
  have hrun : ∀ s0 : SimState, (execute_intervention s0 c t).1.agents =
      if (parse_assignments p.2).isEmpty = true then s0.agents
      else (apply_agent_patch
        (phaseRunSpeed (toLowerChars (normalize_command c.data))
          (⟨s0, [], [], false⟩ : ExecAcc)).st
        (p.1 : Int) (parse_assignments p.2)).1.agents := by
    intro s0
    rw [exec_set_agent_agents s0 c t p hsam hgs, phaseSetAgent_st]
    split_ifs with hp
    · exact hA1 s0
    · rfl
  have hmain : (execute_intervention (execute_intervention s c t).1 c t).1.agents =
      (execute_intervention s c t).1.agents := by
    rw [hrun ((execute_intervention s c t).1)]
    split_ifs with hp
    · rfl
    · rw [apply_agent_patch_agents_congr ((execute_intervention s c t).1)
        (phaseRunSpeed (toLowerChars (normalize_command c.data))
          (⟨(execute_intervention s c t).1, [], [], false⟩ : ExecAcc)).st
        (p.1 : Int) (parse_assignments p.2)
        (hA1 ((execute_intervention s c t).1))]
      exact apply_twice_agents
        (phaseRunSpeed (toLowerChars (normalize_command c.data))
          (⟨s, [], [], false⟩ : ExecAcc)).st
        ((execute_intervention s c t).1) (p.1 : Int) (parse_assignments p.2)
        (by rw [hrun s, if_neg hp])
  exact ⟨hmain, fun aid => by unfold agent_mood; rw [ref_agents_congr hmain]⟩

/-- Witness for C8 at a concrete one-agent state with `set agent 3 mood=0.5`. -/
theorem claim_C8_set_agent_idempotent_witness :
    (execute_intervention (execute_intervention wState1 "set agent 3 mood=0.5" none).1
        "set agent 3 mood=0.5" none).1.agents =
      (execute_intervention wState1 "set agent 3 mood=0.5" none).1.agents ∧
    agent_mood (execute_intervention
        (execute_intervention wState1 "set agent 3 mood=0.5" none).1
        "set agent 3 mood=0.5" none).1 3 =
      agent_mood (execute_intervention wState1 "set agent 3 mood=0.5" none).1 3 := by
  have h := claim_C8_set_agent_idempotent wState1 "set agent 3 mood=0.5" none
    (3, "mood=0.5".data) (by decide) (by decide)
  exact ⟨h.1, h.2 3⟩

theorem stripLeading_head_not (l : List Char) :
    stripLeading l = [] ∨
    ∃ c cs, stripLeading l = c :: cs ∧ pyIsSpace c = false := by
  induction l with
  | nil => exact Or.inl rfl
  | cons c cs ih =>
    by_cases h : pyIsSpace c = true
    · rw [show stripLeading (c :: cs) = stripLeading cs from by simp [stripLeading, h]]
      exact ih
    · have h2 : pyIsSpace c = false := by
        cases hb : pyIsSpace c
        · rfl
        · exact absurd hb h
      exact Or.inr ⟨c, cs, by simp [stripLeading, h2], h2⟩

theorem stripLeading_suffix (l : List Char) : ∃ pre, l = pre ++ stripLeading l := by
  induction l with
  | nil => exact ⟨[], rfl⟩
  | cons c cs ih =>
    by_cases h : pyIsSpace c = true
    · obtain ⟨pre, hpre⟩ := ih
      refine ⟨c :: pre, ?_⟩
      rw [show stripLeading (c :: cs) = stripLeading cs from by simp [stripLeading, h]]
      rw [List.cons_append, ← hpre]
    · refine ⟨[], ?_⟩
      rw [show stripLeading (c :: cs) = c :: cs from by simp [stripLeading, h]]
      rfl

theorem stripLeading_of_head {c : Char} {cs : List Char} (h : pyIsSpace c = false) :
    stripLeading (c :: cs) = c :: cs := by
  simp [stripLeading, h]

theorem pyStrip_idem (l : List Char) : pyStrip (pyStrip l) = pyStrip l := by
  rcases stripLeading_head_not ((stripLeading l).reverse) with hB | ⟨b, bs, hB, hb⟩
  · have hm : pyStrip l = [] := by
      unfold pyStrip
      rw [hB]
      rfl
    rw [hm]
    rfl
  · have hb2 : stripLeading (stripLeading ((stripLeading l).reverse)) =
        stripLeading ((stripLeading l).reverse) := by
      rw [hB]
      exact stripLeading_of_head hb
    obtain ⟨pre, hpre⟩ := stripLeading_suffix ((stripLeading l).reverse)
    have hA : stripLeading l =
        (stripLeading ((stripLeading l).reverse)).reverse ++ pre.reverse := by
      calc stripLeading l = ((stripLeading l).reverse).reverse :=
            (List.reverse_reverse _).symm
        _ = (pre ++ stripLeading ((stripLeading l).reverse)).reverse := by rw [← hpre]
        _ = (stripLeading ((stripLeading l).reverse)).reverse ++ pre.reverse :=
            List.reverse_append _ _
  
    obtain ⟨d, ds, hd⟩ := List.exists_cons_of_ne_nil
      (show (stripLeading ((stripLeading l).reverse)).reverse ≠ [] from by
        rw [hB]; simp)
    have hdns : pyIsSpace d = false := by
      rcases stripLeading_head_not l with hA0 | ⟨a, as, hA0, ha⟩
      · exfalso
        rw [hA0] at hB
        simp [stripLeading] at hB
      · rw [hd] at hA
        rw [hA0] at hA
        rw [List.cons_append] at hA
        have had : a = d := (List.cons.injEq .. ▸ hA).1
        rw [← had]
        exact ha
    have hm : pyStrip l = d :: ds := hd
    rw [hm]
    unfold pyStrip
    rw [stripLeading_of_head hdns]
    rw [show (d :: ds).reverse = stripLeading ((stripLeading l).reverse) from by
      rw [← hd, List.reverse_reverse]]
    rw [hb2]
    exact hd

/-- C7 counterexample: the claim as stated fails when the remainder after the
first bracketed prefix itself begins with a bracketed prefix.  For
`"[A] [B] pause"` the engine strips only the first prefix, normalizes to
`"[B] pause"` and records nothing, while executing the stripped command
`"[B] pause"` strips again, normalizes to `"pause"` and pauses the
simulation — so the two runs differ. -/
theorem claim_C7_counterexample :
    execute_intervention wState1 "[A] [B] pause" none ≠
      execute_intervention wState1 "[B] pause" none := by
  intro h
  exact absurd (congrArg (fun r => r.2.status) h) (by decide)

/-- C7 amended: if the (stripped) command starts with `[` and contains `]`,
and the remainder after discarding through the first `]` (trimmed) does not
itself carry a bracketed prefix, then executing the command is identical to
executing that remainder: the stripping is applied once per call. -/
theorem claim_C7_bracket_strip (s : SimState) (c : String) (t : Option Int)
    (h1 : bracketed (pyStrip c.data) = true)
    (h2 : bracketed (pyStrip (dropThroughRBracket (pyStrip c.data))) = false) :
    execute_intervention s c t =
      execute_intervention s (String.mk (pyStrip (dropThroughRBracket (pyStrip c.data)))) t := by
  unfold execute_intervention
  have hn : normalize_command c.data =
      normalize_command (String.mk (pyStrip (dropThroughRBracket (pyStrip c.data)))).data := by
    show normalize_command c.data =
      normalize_command (pyStrip (dropThroughRBracket (pyStrip c.data)))
    unfold normalize_command
    rw [if_pos h1, pyStrip_idem, if_neg (by simp [h2])]
  rw [hn]

/-- Witness for the amended C7: `[Group A] pause` behaves identically to
`pause`, at a concrete state. -/
theorem claim_C7_bracket_strip_witness :
    execute_intervention wState1 "[Group A] pause" none =
      execute_intervention wState1 "pause" none := by
  have h := claim_C7_bracket_strip wState1 "[Group A] pause" none (by decide) (by decide)
  rw [show String.mk (pyStrip (dropThroughRBracket (pyStrip "[Group A] pause".data)))
      = "pause" from by decide] at h
  exact h

/-- Witness for C9: the three prefix tags at concrete commands, and the
`survey` command returning status applied with the state unchanged. -/
theorem claim_C9_recorded_only_tags_witness :
    Effect.survey_triggered ∈ (execute_intervention wState1 "survey" none).2.effects ∧
    Effect.broadcast_sent ∈ (execute_intervention wState1 "broadcast hello" none).2.effects ∧
    Effect.event_injected ∈
      (execute_intervention wState1 "inject event storm" none).2.effects ∧
    execute_intervention wState1 "survey" none =
      (wState1, ⟨"applied".data, "survey".data, [Effect.survey_triggered], []⟩) :=
  ⟨(claim_C9_recorded_only_tags.1 wState1 "survey" none).2.1 (by decide),
   (claim_C9_recorded_only_tags.1 wState1 "broadcast hello" none).2.2 (by decide),
   (claim_C9_recorded_only_tags.1 wState1 "inject event storm" none).1 (by decide),
   claim_C9_recorded_only_tags.2 wState1 none⟩
